import Mathlib

/-!
# PASETO message framing and parser front end

A shallow embedding of `message.go` and `parser.go`, with the collaborators
that these files call (base64url, protocols, payloads, the cryptographic
suites, PASERK) modelled from the specification.

* Go strings are embedded as lists of characters (`Str`), one character for
  each byte of the string (the byte `b` is `Char.ofNat b`); `'.'` is the
  separator of `strings.Split`.
* Go byte slices are embedded as lists of bytes (`Bytes`).
* `t.Result[T]` of the go-result library is `Result T`, with `Ok` / `Err`.
* A run of a Go function either panics or returns: `Exec`. Slice indexing
  out of range, `Unwrap` on an `Err`, `UnwrapErr` on an `Ok` and `Expect` on an
  `Err` panic.
-/

namespace Paseto

/-! ## Basic data -/

/-- A Go `string`. -/
abbrev Str := List Char

/-- A Go `byte`. -/
abbrev Byte := Fin 256

/-- A Go `[]byte`. -/
abbrev Bytes := List Byte

/-- A Go fixed-size array `[n]byte`. -/
abbrev ByteArr (n : Nat) := { l : Bytes // l.length = n }

/-- The outcome of running a Go function: it returns a value or it panics. -/
inductive Exec (α : Type) where
  | panic : String → Exec α
  | done : α → Exec α
  deriving DecidableEq, Repr

/-- Sequencing of Go statements: a panic aborts everything that follows. -/
def Exec.andThen {α β : Type} (x : Exec α) (f : α → Exec β) : Exec β :=
  match x with
  | .panic msg => .panic msg
  | .done a => f a

/-- Version tag of a protocol. -/
inductive Version where
  | Version2 | Version3 | Version4
  deriving DecidableEq, Repr

/-- Purpose tag of a protocol. -/
inductive Purpose where
  | Local | Public
  deriving DecidableEq, Repr

/-- Modelled from the spec: the `Protocol` type, a tag identifying
(version ∈ {v2, v3, v4}, purpose ∈ {local, public}). -/
structure Protocol where
  version : Version
  purpose : Purpose
  deriving DecidableEq, Repr

def V2Local : Protocol := ⟨.Version2, .Local⟩
def V2Public : Protocol := ⟨.Version2, .Public⟩
def V3Local : Protocol := ⟨.Version3, .Local⟩
def V3Public : Protocol := ⟨.Version3, .Public⟩
def V4Local : Protocol := ⟨.Version4, .Local⟩
def V4Public : Protocol := ⟨.Version4, .Public⟩

/-- The string of a version tag: `v2`, `v3`, `v4`. -/
def Version.str : Version → Str
  | .Version2 => ['v', '2']
  | .Version3 => ['v', '3']
  | .Version4 => ['v', '4']

/-- The string of a purpose tag: `local`, `public`. -/
def Purpose.str : Purpose → Str
  | .Local => ['l', 'o', 'c', 'a', 'l']
  | .Public => ['p', 'u', 'b', 'l', 'i', 'c']

/-- Modelled from the spec: `Protocol.Header()`, the fixed header string
`v{N}.{purpose}.` of a protocol (for example `"v4.local."`). -/
def Protocol.Header (p : Protocol) : Str :=
  p.version.str ++ ['.'] ++ p.purpose.str ++ ['.']

/-! ## Errors -/

/-- Error values, recorded by the way they are built. The constructors are the
error kinds named by the spec, and `TokenError e` is what `newTokenError(e)`
wraps around an underlying error `e`. -/
inductive Error where
  | MalformedParts (count : Nat)
  | WrongHeader (expected : Protocol) (given : Str)
  | BadEncoding
  | BadPayloadSize
  | CryptoFailed
  | BadClaims
  | TokenError (e : Error)
  deriving DecidableEq, Repr

/-- A `t.Result[T]` of go-result: `Ok(value)` or `Err(error)`. -/
inductive Result (α : Type) where
  | Err : Error → Result α
  | Ok : α → Result α
  deriving DecidableEq, Repr

/-- The `t.AndThen(res, f)` combinator of go-result. -/
def AndThen {α β : Type} (res : Result α) (f : α → Result β) : Result β :=
  match res with
  | .Err e => .Err e
  | .Ok a => f a

/-- The `IsErr()` method of go-result. -/
def Result.IsErr {α : Type} : Result α → Bool
  | .Err _ => true
  | .Ok _ => false

/-- The `Unwrap()` method of go-result: the value of an `Ok`, a panic on an
`Err`. -/
def Result.Unwrap {α : Type} : Result α → Exec α
  | .Ok a => .done a
  | .Err _ => .panic "called Unwrap on an Err"

/-- The `UnwrapErr()` method of go-result: the error of an `Err`, a panic on
an `Ok`. -/
def Result.UnwrapErr {α : Type} : Result α → Exec Error
  | .Err e => .done e
  | .Ok _ => .panic "called UnwrapErr on an Ok"

/-- The `Expect(msg)` method of go-result: the value of an `Ok`, a panic with
`msg` on an `Err`. -/
def Result.Expect {α : Type} (res : Result α) (msg : String) : Exec α :=
  match res with
  | .Ok a => .done a
  | .Err _ => .panic msg

/-- Modelled from the spec: `errorMessageParts(count)`, the `MalformedParts`
error for a token that does not have 3 or 4 segments. -/
def errorMessageParts (count : Nat) : Error := .MalformedParts count

/-- Modelled from the spec: `errorMessageHeader(protocol, header)`, the
`WrongHeader` error. -/
def errorMessageHeader (protocol : Protocol) (given : Str) : Error :=
  .WrongHeader protocol given

/-- Modelled from the spec: `newTokenError(e)`, the token error wrapping `e`. -/
def newTokenError (e : Error) : Error := .TokenError e

/-! ## `strings.Split(token, ".")` -/

/-- The Go library call `strings.Split(s, ".")`: the substrings between the
dots, one more than there are dots. -/
def Split : Str → List Str
  | [] => [[]]
  | c :: cs =>
    if c = '.' then [] :: Split cs
    else
      match Split cs with
      | [] => [[c]]
      | p :: ps => (c :: p) :: ps

/-! ## `deconstructToken` -/

structure deconstructedToken where
  header : Str
  encodedPayload : Str
  encodedFooter : Str
  deriving DecidableEq, Repr

/-- A Go slice indexing `parts[i]`, which panics out of range. -/
def index (parts : List Str) (i : Nat) : Exec Str :=
  match parts[i]? with
  | some s => .done s
  | none => .panic "index out of range"

def deconstructToken (token : Str) : Exec (Result deconstructedToken) :=
  let parts := Split token
  let partsLen := parts.length
  if partsLen ≠ 3 ∧ partsLen ≠ 4 then
    .done (.Err (errorMessageParts parts.length))
  else
    (index parts 0).andThen fun p0 =>
    (index parts 1).andThen fun p1 =>
    let header := p0 ++ ['.'] ++ p1 ++ ['.']
    (index parts 2).andThen fun encodedPayload =>
    (if partsLen = 4 then index parts 3 else .done []).andThen fun encodedFooter =>
    .done (.Ok { header := header, encodedPayload := encodedPayload,
                 encodedFooter := encodedFooter })

/-! ## Unpadded base64url (`internal/encoding`) -/

/-- The URL-safe base64 alphabet, in the order of the sextet values. -/
def alphabet : List Char :=
  "ABCDEFGHIJKLMNOPQRSTUVWXYZabcdefghijklmnopqrstuvwxyz0123456789-_".toList

/-- The character of a sextet value. -/
def encodeSextet (n : Nat) : Char := alphabet.getD (n % 64) 'A'

/-- The sextet value of a character, `none` outside the alphabet. -/
def decodeSextet (c : Char) : Option Nat :=
  if alphabet.indexOf c < 64 then some (alphabet.indexOf c) else none

/-- The byte with the numeric value `n` (reduced to 8 bits). -/
def toByte (n : Nat) : Byte := ⟨n % 256, Nat.mod_lt n (by decide)⟩

/-- Modelled from the spec: `encoding.Encode`, unpadded base64url encoding
with the standard URL-safe alphabet and no `=` padding. -/
def Encode : Bytes → Str
  | [] => []
  | [a] => [encodeSextet (a.val / 4), encodeSextet (a.val % 4 * 16)]
  | [a, b] =>
    [encodeSextet (a.val / 4), encodeSextet (a.val % 4 * 16 + b.val / 16),
     encodeSextet (b.val % 16 * 4)]
  | a :: b :: c :: rest =>
    encodeSextet (a.val / 4) :: encodeSextet (a.val % 4 * 16 + b.val / 16) ::
      encodeSextet (b.val % 16 * 4 + c.val / 64) :: encodeSextet (c.val % 64) :: Encode rest

/-- Modelled from the spec: `encoding.Decode`, unpadded base64url decoding. It
is strict: it rejects every character outside the alphabet, `=` included, a
length that no encoding has, and a final group of 2 or 3 characters whose
unused low bits are not zero. -/
def Decode : Str → Result Bytes
  | [] => .Ok []
  | [_] => .Err .BadEncoding
  | [c0, c1] =>
    match decodeSextet c0, decodeSextet c1 with
    | some x0, some x1 =>
      if x1 % 16 = 0 then .Ok [toByte (x0 * 4 + x1 / 16)] else .Err .BadEncoding
    | _, _ => .Err .BadEncoding
  | [c0, c1, c2] =>
    match decodeSextet c0, decodeSextet c1, decodeSextet c2 with
    | some x0, some x1, some x2 =>
      if x2 % 4 = 0 then .Ok [toByte (x0 * 4 + x1 / 16), toByte (x1 % 16 * 16 + x2 / 4)]
      else .Err .BadEncoding
    | _, _, _ => .Err .BadEncoding
  | c0 :: c1 :: c2 :: c3 :: rest =>
    match decodeSextet c0, decodeSextet c1, decodeSextet c2, decodeSextet c3 with
    | some x0, some x1, some x2, some x3 =>
      match Decode rest with
      | .Ok bs =>
        .Ok (toByte (x0 * 4 + x1 / 16) :: toByte (x1 % 16 * 16 + x2 / 4) ::
          toByte (x2 % 4 * 64 + x3) :: bs)
      | .Err e => .Err e
    | _, _, _, _ => .Err .BadEncoding

/-! ## Payloads -/

/-- Modelled from the spec: the `payload` types, one variant per protocol, with
the byte layouts `nonce[24] ‖ AEAD_out` (v2 local), `nonce[32] ‖ ct ‖ mac[48]`
(v3 local), `nonce[32] ‖ ct ‖ tag[32]` (v4 local) and `message ‖ sig` with a
signature of 64 (v2, v4) or 96 (v3) bytes (public). -/
inductive payload where
  | v2Local (nonce : ByteArr 24) (cipherText : Bytes)
  | v2Public (message : Bytes) (signature : ByteArr 64)
  | v3Local (nonce : ByteArr 32) (cipherText : Bytes) (mac : ByteArr 48)
  | v3Public (message : Bytes) (signature : ByteArr 96)
  | v4Local (nonce : ByteArr 32) (cipherText : Bytes) (tag : ByteArr 32)
  | v4Public (message : Bytes) (signature : ByteArr 64)
  deriving DecidableEq

/-- Modelled from the spec: `payload.bytes()`, the byte layout of a payload. -/
def payload.bytes : payload → Bytes
  | .v2Local nonce cipherText => nonce.val ++ cipherText
  | .v2Public message signature => message ++ signature.val
  | .v3Local nonce cipherText mac => nonce.val ++ cipherText ++ mac.val
  | .v3Public message signature => message ++ signature.val
  | .v4Local nonce cipherText tag => nonce.val ++ cipherText ++ tag.val
  | .v4Public message signature => message ++ signature.val

/-- The first `n` bytes of a slice that has at least `n`. -/
def firstArr (n : Nat) (b : Bytes) (h : n ≤ b.length) : ByteArr n :=
  ⟨b.take n, by simp [h]⟩

/-- The last `n` bytes of a slice that has at least `n`. -/
def lastArr (n : Nat) (b : Bytes) (h : n ≤ b.length) : ByteArr n :=
  ⟨b.drop (b.length - n), by simp; omega⟩

/-- The bytes of a slice between a head of `n` and a tail of `k` bytes. -/
def middle (n k : Nat) (b : Bytes) : Bytes :=
  (b.drop n).take (b.length - n - k)

/-- Modelled from the spec: `Protocol.newPayload`, which interprets raw bytes as
the payload layout of the protocol and fails with `BadPayloadSize` when they
are too short: v2 local needs 24+16 bytes, v3 local 32+48, v4 local a nonce of
32 and a tag of 32, public the length of the signature. -/
def Protocol.newPayload (p : Protocol) (bytes : Bytes) : Result payload :=
  match p.version, p.purpose with
  | .Version2, .Local =>
    if h : 24 + 16 ≤ bytes.length then
      .Ok (.v2Local (firstArr 24 bytes (by omega)) (bytes.drop 24))
    else .Err .BadPayloadSize
  | .Version2, .Public =>
    if h : 64 ≤ bytes.length then
      .Ok (.v2Public (bytes.take (bytes.length - 64)) (lastArr 64 bytes h))
    else .Err .BadPayloadSize
  | .Version3, .Local =>
    if h : 32 + 48 ≤ bytes.length then
      .Ok (.v3Local (firstArr 32 bytes (by omega)) (middle 32 48 bytes)
        (lastArr 48 bytes (by omega)))
    else .Err .BadPayloadSize
  | .Version3, .Public =>
    if h : 96 ≤ bytes.length then
      .Ok (.v3Public (bytes.take (bytes.length - 96)) (lastArr 96 bytes h))
    else .Err .BadPayloadSize
  | .Version4, .Local =>
    if h : 32 + 32 ≤ bytes.length then
      .Ok (.v4Local (firstArr 32 bytes (by omega)) (middle 32 32 bytes)
        (lastArr 32 bytes (by omega)))
    else .Err .BadPayloadSize
  | .Version4, .Public =>
    if h : 64 ≤ bytes.length then
      .Ok (.v4Public (bytes.take (bytes.length - 64)) (lastArr 64 bytes h))
    else .Err .BadPayloadSize

/-- Modelled from the spec: `protocolForPayload`, the protocol whose payload
variant the given payload is. -/
def protocolForPayload : payload → Result Protocol
  | .v2Local _ _ => .Ok V2Local
  | .v2Public _ _ => .Ok V2Public
  | .v3Local _ _ _ => .Ok V3Local
  | .v3Public _ _ => .Ok V3Public
  | .v4Local _ _ _ => .Ok V4Local
  | .v4Public _ _ => .Ok V4Public

/-! ## Messages (`message.go`) -/

structure message where
  protocol : Protocol
  p : payload
  footer : Bytes
  deriving DecidableEq

def newMessageFromPayloadAndFooter (payload : payload) (footer : Bytes) : Exec message :=
  ((protocolForPayload payload).Expect "sanity check for payload failed").andThen
    fun protocol => .done ⟨protocol, payload, footer⟩

def newMessage (protocol : Protocol) (token : Str) : Exec (Result message) :=
  (deconstructToken token).andThen fun partsRes =>
  if partsRes.IsErr then
    partsRes.UnwrapErr.andThen fun e => .done (.Err e)
  else
    partsRes.Unwrap.andThen fun parts =>
    if parts.header ≠ protocol.Header then
      .done (.Err (errorMessageHeader protocol parts.header))
    else
      let payloadRes := AndThen (Decode parts.encodedPayload) protocol.newPayload
      if payloadRes.IsErr then
        payloadRes.UnwrapErr.andThen fun e => .done (.Err (newTokenError e))
      else
        payloadRes.Unwrap.andThen fun pload =>
        let footerRes := Decode parts.encodedFooter
        if footerRes.IsErr then
          footerRes.UnwrapErr.andThen fun e => .done (.Err e)
        else
          footerRes.Unwrap.andThen fun encodedFooter =>
          (newMessageFromPayloadAndFooter pload encodedFooter).andThen
            fun m => .done (.Ok m)

def message.header (m : message) : Str := m.protocol.Header

def message.unsafeFooter (m : message) : Bytes := m.footer

def message.encoded (m : message) : Str :=
  let main := m.header ++ Encode m.p.bytes
  if m.footer.length = 0 then main
  else main ++ ['.'] ++ Encode m.footer

/-! ## Parser (`parser.go`) -/

/-- Modelled from the spec: the `Token` type, a claims object (a mapping from
string to JSON value, kept in insertion order) and a footer. -/
structure Token where
  claims : List (Str × Str)
  footer : Bytes
  deriving DecidableEq, Repr

/-- A `Rule`, a predicate `func(Token) error`: `none` is the `nil` error. The
error type `ε` stands for Go's `error` interface. -/
abbrev Rule (ε : Type) := Token → Option ε

structure Parser (ε : Type) where
  rules : List (Rule ε)

def NewParser {ε : Type} : Parser ε := ⟨[]⟩

/-- The constructor `NewParserForValidNow`; the rule builder `ValidAt` and the
reading `now` of the clock are taken as arguments. -/
def NewParserForValidNow {ε Time : Type} (ValidAt : Time → Rule ε) (now : Time) : Parser ε :=
  ⟨[ValidAt now]⟩

def MakeParser {ε : Type} (rules : List (Rule ε)) : Parser ε := ⟨rules⟩

/-- The loop of `validate` over the rules that are left. A Go result pair
`(*Token, error)` is embedded as `Except`: the error when it is not `nil`,
the token otherwise. -/
def validateLoop {ε : Type} : List (Rule ε) → Token → Except ε Token
  | [], token => .ok token
  | rule :: rest, token =>
    match rule token with
    | some err => .error err
    | none => validateLoop rest token

def Parser.validate {ε : Type} (p : Parser ε) (token : Token) : Except ε Token :=
  validateLoop p.rules token

/-- The method `ParseV4Local`. The exported `NewMessage` and `V4Decrypt` are
taken as arguments, with the types `Message` of messages and `K` of keys. -/
def Parser.ParseV4Local {ε Message K : Type}
    (NewMessage : Protocol → Str → Except ε Message)
    (V4Decrypt : Message → K → Bytes → Except ε Token)
    (p : Parser ε) (key : K) (tainted : Str) (implicit : Bytes) : Except ε Token :=
  match NewMessage V4Local tainted with
  | .error err => .error err
  | .ok message =>
    match V4Decrypt message key implicit with
    | .error err => .error err
    | .ok token => p.validate token

/-- The method `ParseV4Public`. The exported `NewMessage` and `V4Verify` are
taken as arguments, with the types `Message` of messages and `K` of keys. -/
def Parser.ParseV4Public {ε Message K : Type}
    (NewMessage : Protocol → Str → Except ε Message)
    (V4Verify : Message → K → Bytes → Except ε Token)
    (p : Parser ε) (key : K) (tainted : Str) (implicit : Bytes) : Except ε Token :=
  match NewMessage V4Public tainted with
  | .error err => .error err
  | .ok message =>
    match V4Verify message key implicit with
    | .error err => .error err
    | .ok token => p.validate token

def Parser.SetRules {ε : Type} (_p : Parser ε) (rules : List (Rule ε)) : Parser ε :=
  ⟨rules⟩

def Parser.AddRule {ε : Type} (p : Parser ε) (rule : List (Rule ε)) : Parser ε :=
  ⟨p.rules ++ rule⟩

/-! ## Auxiliary definitions -/

/-- What `newMessage` does with the parts of a token that `deconstructToken`
accepted. -/
def newMessageOfParts (P : Protocol) (parts : deconstructedToken) : Exec (Result message) :=
  if parts.header ≠ P.Header then
    .done (.Err (errorMessageHeader P parts.header))
  else
    match AndThen (Decode parts.encodedPayload) P.newPayload with
    | .Err e => .done (.Err (newTokenError e))
    | .Ok pload =>
      match Decode parts.encodedFooter with
      | .Err e => .done (.Err e)
      | .Ok footer => .done (.Ok ⟨P, pload, footer⟩)

/-- A `v4.public` payload with an empty message and a signature of 64 zero
bytes. -/
def zeroPublicPayload : payload :=
  .v4Public [] ⟨List.replicate 64 0, by decide⟩

/-- A rule that accepts tokens with an empty footer and otherwise fails with
the given error code. -/
def emptyFooterRule (code : Nat) : Rule Nat :=
  fun t => if t.footer = [] then none else some code

/-- A stand-in for `NewMessage` in the witnesses: it accepts the strings that
start with the header of the protocol and keeps what follows the header. -/
def sampleNewMessage (P : Protocol) (s : Str) : Except Nat Str :=
  if P.Header.isPrefixOf s then .ok (s.drop P.Header.length) else .error 1

/-- A stand-in for `V4Decrypt` and `V4Verify` in the witnesses: it accepts the
messages whose length is the key and puts the implicit bytes in the footer. -/
def sampleOpen (m : Str) (key : Nat) (implicit : Bytes) : Except Nat Token :=
  if m.length = key then .ok ⟨[], implicit⟩ else .error 2

/-- A string without a dot. -/
def dotFree (s : Str) : Prop := ∀ c ∈ s, c ≠ '.'

instance (s : Str) : Decidable (dotFree s) := by
  unfold dotFree
  infer_instance

deriving instance DecidableEq for Except

/-! ## PASERK (`paserk` package) -/

/-- Modelled from the spec: the kinds of key, symmetric (`local`), asymmetric
secret (`secret`) and asymmetric public (`public`). -/
inductive KeyKind where
  | Local | Secret | Public
  deriving DecidableEq, Repr

/-- Modelled from the spec: the type of a key, its version and its kind. -/
structure KeyType where
  version : Version
  kind : KeyKind
  deriving DecidableEq, Repr

/-- Modelled from the spec: the byte length of the keys of a type: symmetric
32; asymmetric secret 64 for v2 and v4 and 48 for v3; asymmetric public 32 for
v2 and v4 and 49 for v3. -/
def KeyType.length (T : KeyType) : Nat :=
  match T.kind, T.version with
  | .Local, _ => 32
  | .Secret, .Version3 => 48
  | .Secret, _ => 64
  | .Public, .Version3 => 49
  | .Public, _ => 32

/-- Modelled from the spec: a key, the raw bytes tagged with the version and
kind. -/
structure Key where
  type : KeyType
  material : Bytes
  deriving DecidableEq, Repr

/-- The checks of the P-384 library on v3 keys, taken as arguments: that a
compressed public point is on the curve and not the identity, and that a
secret scalar is between 1 and the order of the group. -/
structure P384 where
  validPoint : Bytes → Bool
  validScalar : Bytes → Bool

/-- Errors of the `paserk` package and of the key constructors. -/
inductive PaserkError where
  | BadPaserk
  | BadKey
  deriving DecidableEq, Repr

/-- Modelled from the spec: the validation of key constructors besides the
length, the curve check for v3 public keys and the range check for v3 secret
keys. -/
def keyCheck (c : P384) (T : KeyType) (raw : Bytes) : Bool :=
  match T.version, T.kind with
  | .Version3, .Public => c.validPoint raw
  | .Version3, .Secret => c.validScalar raw
  | _, _ => true

/-- Modelled from the spec: the key constructor from raw bytes of a key type,
which validates the length and runs the checks of the type. -/
def NewKey (c : P384) (T : KeyType) (raw : Bytes) : Except PaserkError Key :=
  if raw.length = T.length ∧ keyCheck c T raw = true then .ok ⟨T, raw⟩
  else .error .BadKey

/-- A key that its constructor accepts. -/
def Key.valid (c : P384) (K : Key) : Prop :=
  K.material.length = K.type.length ∧ keyCheck c K.type K.material = true

instance (c : P384) (K : Key) : Decidable (K.valid c) := by
  unfold Key.valid
  infer_instance

/-- The digit of a version. -/
def Version.digit : Version → Char
  | .Version2 => '2'
  | .Version3 => '3'
  | .Version4 => '4'

/-- The name of a key kind in a PASERK string. -/
def KeyKind.str : KeyKind → Str
  | .Local => "local".toList
  | .Secret => "secret".toList
  | .Public => "public".toList

/-- Modelled from the spec: the prefix `k{version}.{type}.` of the PASERK
strings of a key type. -/
def paserkHeader (T : KeyType) : Str :=
  ['k', T.version.digit, '.'] ++ T.kind.str ++ ['.']

/-- Modelled from the spec: `SerializeKey`, the prefix of the key type followed
by the base64url of the raw key bytes. -/
def SerializeKey (K : Key) : Except PaserkError Str :=
  .ok (paserkHeader K.type ++ Encode K.material)

/-- Modelled from the spec: `DeserializeKey[T]`, which requires the exact
prefix of the key type `T`, decodes the body as base64url and hands the bytes
to the key constructor of `T`. -/
def DeserializeKey (c : P384) (T : KeyType) (paserk : Str) : Except PaserkError Key :=
  if paserk.take (paserkHeader T).length = paserkHeader T then
    match Decode (paserk.drop (paserkHeader T).length) with
    | .Err _ => .error .BadPaserk
    | .Ok raw => NewKey c T raw
  else .error .BadPaserk

/-- The P-384 checks that accept every byte string, for the witnesses. -/
def acceptAll : P384 := ⟨fun _ => true, fun _ => true⟩

/-! ## Cryptographic layer -/

/-- The bytes of a Go string. -/
def strBytes (s : Str) : Bytes := s.map fun (ch : Char) => toByte ch.toNat

/-- Modelled from the spec: `LE64(n)`, the 8 bytes of the little-endian
encoding of an unsigned 64-bit integer with the high bit cleared. -/
def LE64 (n : Nat) : Bytes :=
  (List.range 8).map fun i => toByte (n % 2 ^ 63 / 256 ^ i)

/-- Modelled from the spec: `PAE`, the pre-authentication encoding of a
sequence of byte pieces, `LE64(k) ‖ LE64(|p₀|) ‖ p₀ ‖ LE64(|p₁|) ‖ p₁ ‖ …`. -/
def PAE (pieces : List Bytes) : Bytes :=
  LE64 pieces.length ++ pieces.foldr (fun p acc => LE64 p.length ++ p ++ acc) []

/-- Modelled from the spec: the public key of an Ed25519 secret key of 64
bytes, which is the seed followed by the public key. -/
def ed25519Public (sk : ByteArr 64) : ByteArr 32 :=
  lastArr 32 sk.val (by rw [sk.property]; decide)

/-- The cryptographic primitives of the libraries, taken as arguments, with
the facts about them that the round trip uses: the stream ciphers undo
themselves, the AEAD opens what it sealed and adds a tag of 16 bytes, and a
signature made with a valid secret key verifies under its public key. -/
structure Primitives where
  blake2b : (len : Nat) → (key data : Bytes) → ByteArr len
  xchacha20 : ByteArr 32 → ByteArr 24 → Bytes → Bytes
  xchacha20_inverse : ∀ k n d, xchacha20 k n (xchacha20 k n d) = d
  aeadSeal : ByteArr 32 → ByteArr 24 → (plaintext aad : Bytes) → Bytes
  aeadOpen : ByteArr 32 → ByteArr 24 → (cipherText aad : Bytes) → Option Bytes
  aeadOpen_aeadSeal : ∀ k n p a, aeadOpen k n (aeadSeal k n p a) a = some p
  aeadSeal_length : ∀ k n p a, (aeadSeal k n p a).length = p.length + 16
  ed25519Valid : ByteArr 64 → Bool
  ed25519Sign : ByteArr 64 → Bytes → ByteArr 64
  ed25519Verify : ByteArr 32 → Bytes → ByteArr 64 → Bool
  ed25519Verify_ed25519Sign : ∀ sk m, ed25519Valid sk = true →
    ed25519Verify (ed25519Public sk) m (ed25519Sign sk m) = true
  hkdfSha384 : (len : Nat) → (key info : Bytes) → ByteArr len
  aes256Ctr : ByteArr 32 → ByteArr 16 → Bytes → Bytes
  aes256Ctr_inverse : ∀ k n d, aes256Ctr k n (aes256Ctr k n d) = d
  hmacSha384 : (key data : Bytes) → ByteArr 48
  sha384 : Bytes → ByteArr 48
  p384Valid : ByteArr 48 → Bool
  p384Public : ByteArr 48 → ByteArr 49
  ecdsaSign : ByteArr 48 → ByteArr 48 → ByteArr 96
  ecdsaVerify : ByteArr 49 → ByteArr 48 → ByteArr 96 → Bool
  ecdsaVerify_ecdsaSign : ∀ sk d, p384Valid sk = true →
    ecdsaVerify (p384Public sk) d (ecdsaSign sk d) = true

/-- The JSON coding of claims objects, an external collaborator that is taken
as argument. -/
structure ClaimsCodec where
  encode : List (Str × Str) → Bytes
  decode : Bytes → Option (List (Str × Str))

/-- Modelled from the spec: the `packet` type, the plaintext content of a
message and its footer. -/
structure packet where
  content : Bytes
  footer : Bytes
  deriving DecidableEq, Repr

/-- Modelled from the spec: the packet of a token, the JSON of its claims and
its footer. -/
def Token.packet (j : ClaimsCodec) (t : Token) : packet :=
  ⟨j.encode t.claims, t.footer⟩

/-- Modelled from the spec: `packet.token`, which interprets the plaintext as
a JSON object of claims and keeps the footer. -/
def packet.token (j : ClaimsCodec) (p : packet) : Result Token :=
  match j.decode p.content with
  | some claims => .Ok ⟨claims, p.footer⟩
  | none => .Err .BadClaims

/-- Modelled from the spec: the v4 local encryption key, the first 32 bytes
of BLAKE2b with the key over `"paseto-encryption-key" ‖ nonce`, of length 56. -/
def v4EncKey (c : Primitives) (key : ByteArr 32) (nonce : ByteArr 32) : ByteArr 32 :=
  firstArr 32 (c.blake2b 56 key.val (strBytes "paseto-encryption-key".toList ++ nonce.val)).val
    (by rw [(c.blake2b 56 _ _).property]; decide)

/-- Modelled from the spec: the v4 local cipher nonce `n2`, the last 24 bytes
of the same 56 bytes. -/
def v4Nonce2 (c : Primitives) (key : ByteArr 32) (nonce : ByteArr 32) : ByteArr 24 :=
  lastArr 24 (c.blake2b 56 key.val (strBytes "paseto-encryption-key".toList ++ nonce.val)).val
    (by rw [(c.blake2b 56 _ _).property]; decide)

/-- Modelled from the spec: the v4 local authentication key, BLAKE2b with the
key over `"paseto-auth-key-for-aead" ‖ nonce`, of length 32. -/
def v4AuthKey (c : Primitives) (key : ByteArr 32) (nonce : ByteArr 32) : ByteArr 32 :=
  c.blake2b 32 key.val (strBytes "paseto-auth-key-for-aead".toList ++ nonce.val)

/-- Modelled from the spec: v4 local encryption with a given random nonce of
32 bytes: XChaCha20 under the derived key and nonce, a BLAKE2b tag of 32
bytes over `PAE(header, nonce, ciphertext, footer, implicit)`, and the
payload `nonce ‖ ciphertext ‖ tag`. -/
def v4LocalEncrypt (c : Primitives) (p : packet) (key : ByteArr 32) (implicit : Bytes)
    (nonce : ByteArr 32) : Exec message :=
  let cipherText := c.xchacha20 (v4EncKey c key nonce) (v4Nonce2 c key nonce) p.content
  let tag := c.blake2b 32 (v4AuthKey c key nonce).val
    (PAE [strBytes V4Local.Header, nonce.val, cipherText, p.footer, implicit])
  newMessageFromPayloadAndFooter (.v4Local nonce cipherText tag) p.footer

/-- Modelled from the spec: v4 local decryption, which checks the tag first
and fails with `CryptoFailed` on any mismatch. -/
def v4LocalDecrypt (c : Primitives) (m : message) (key : ByteArr 32) (implicit : Bytes) :
    Result packet :=
  match m.p with
  | .v4Local nonce cipherText tag =>
    if c.blake2b 32 (v4AuthKey c key nonce).val
        (PAE [strBytes m.header, nonce.val, cipherText, m.footer, implicit]) = tag then
      .Ok ⟨c.xchacha20 (v4EncKey c key nonce) (v4Nonce2 c key nonce) cipherText, m.footer⟩
    else .Err .CryptoFailed
  | _ => .Err .CryptoFailed

/-- Modelled from the spec: v4 public signing, Ed25519 over
`PAE(header, message, footer, implicit)`, with the payload
`message ‖ signature`. -/
def v4PublicSign (c : Primitives) (p : packet) (key : ByteArr 64) (implicit : Bytes) :
    Exec message :=
  newMessageFromPayloadAndFooter
    (.v4Public p.content (c.ed25519Sign key
      (PAE [strBytes V4Public.Header, p.content, p.footer, implicit]))) p.footer

/-- Modelled from the spec: v4 public verification, which fails with
`CryptoFailed` when the signature does not verify. -/
def v4PublicVerify (c : Primitives) (m : message) (key : ByteArr 32) (implicit : Bytes) :
    Result packet :=
  match m.p with
  | .v4Public content signature =>
    if c.ed25519Verify key (PAE [strBytes m.header, content, m.footer, implicit]) signature
        = true then
      .Ok ⟨content, m.footer⟩
    else .Err .CryptoFailed
  | _ => .Err .CryptoFailed

/-- Modelled from the spec: v2 local encryption with given random bytes: the
nonce of 24 bytes is BLAKE2b of the plaintext keyed with the random bytes, the
additional data is `PAE(header, nonce, footer)`, and the payload is
`nonce ‖ AEAD(key, nonce, plaintext, aad)`. -/
def v2LocalEncrypt (c : Primitives) (p : packet) (key : ByteArr 32) (random : ByteArr 24) :
    Exec message :=
  let nonce := c.blake2b 24 random.val p.content
  newMessageFromPayloadAndFooter
    (.v2Local nonce (c.aeadSeal key nonce p.content
      (PAE [strBytes V2Local.Header, nonce.val, p.footer]))) p.footer

/-- Modelled from the spec: v2 local decryption, which fails with
`CryptoFailed` when the AEAD does not open. -/
def v2LocalDecrypt (c : Primitives) (m : message) (key : ByteArr 32) : Result packet :=
  match m.p with
  | .v2Local nonce cipherText =>
    match c.aeadOpen key nonce cipherText (PAE [strBytes m.header, nonce.val, m.footer]) with
    | some content => .Ok ⟨content, m.footer⟩
    | none => .Err .CryptoFailed
  | _ => .Err .CryptoFailed

/-- Modelled from the spec: v2 public signing, Ed25519 over
`PAE(header, message, footer)`, with the payload `message ‖ signature`. -/
def v2PublicSign (c : Primitives) (p : packet) (key : ByteArr 64) : Exec message :=
  newMessageFromPayloadAndFooter
    (.v2Public p.content (c.ed25519Sign key
      (PAE [strBytes V2Public.Header, p.content, p.footer]))) p.footer

/-- Modelled from the spec: v2 public verification. -/
def v2PublicVerify (c : Primitives) (m : message) (key : ByteArr 32) : Result packet :=
  match m.p with
  | .v2Public content signature =>
    if c.ed25519Verify key (PAE [strBytes m.header, content, m.footer]) signature = true then
      .Ok ⟨content, m.footer⟩
    else .Err .CryptoFailed
  | _ => .Err .CryptoFailed

/-- Modelled from the spec: the v3 local encryption key, the first 32 bytes of
HKDF-SHA384 of the key with the info `"paseto-encryption-key" ‖ nonce`, of
length 48. -/
def v3EncKey (c : Primitives) (key : ByteArr 32) (nonce : ByteArr 32) : ByteArr 32 :=
  firstArr 32 (c.hkdfSha384 48 key.val (strBytes "paseto-encryption-key".toList ++ nonce.val)).val
    (by rw [(c.hkdfSha384 48 _ _).property]; decide)

/-- Modelled from the spec: the v3 local counter nonce `n2`, the last 16 bytes
of the same 48 bytes. -/
def v3Nonce2 (c : Primitives) (key : ByteArr 32) (nonce : ByteArr 32) : ByteArr 16 :=
  lastArr 16 (c.hkdfSha384 48 key.val (strBytes "paseto-encryption-key".toList ++ nonce.val)).val
    (by rw [(c.hkdfSha384 48 _ _).property]; decide)

/-- Modelled from the spec: the v3 local authentication key, HKDF-SHA384 of
the key with the info `"paseto-auth-key-for-aead" ‖ nonce`, of length 48. -/
def v3AuthKey (c : Primitives) (key : ByteArr 32) (nonce : ByteArr 32) : ByteArr 48 :=
  c.hkdfSha384 48 key.val (strBytes "paseto-auth-key-for-aead".toList ++ nonce.val)

/-- Modelled from the spec: v3 local encryption with a given random nonce of
32 bytes: AES-256-CTR under the derived key and nonce, an HMAC-SHA384 over
`PAE(header, nonce, ciphertext, footer, implicit)`, and the payload
`nonce ‖ ciphertext ‖ mac`. -/
def v3LocalEncrypt (c : Primitives) (p : packet) (key : ByteArr 32) (implicit : Bytes)
    (nonce : ByteArr 32) : Exec message :=
  let cipherText := c.aes256Ctr (v3EncKey c key nonce) (v3Nonce2 c key nonce) p.content
  let mac := c.hmacSha384 (v3AuthKey c key nonce).val
    (PAE [strBytes V3Local.Header, nonce.val, cipherText, p.footer, implicit])
  newMessageFromPayloadAndFooter (.v3Local nonce cipherText mac) p.footer

/-- Modelled from the spec: v3 local decryption, which verifies the MAC before
decrypting. -/
def v3LocalDecrypt (c : Primitives) (m : message) (key : ByteArr 32) (implicit : Bytes) :
    Result packet :=
  match m.p with
  | .v3Local nonce cipherText mac =>
    if c.hmacSha384 (v3AuthKey c key nonce).val
        (PAE [strBytes m.header, nonce.val, cipherText, m.footer, implicit]) = mac then
      .Ok ⟨c.aes256Ctr (v3EncKey c key nonce) (v3Nonce2 c key nonce) cipherText, m.footer⟩
    else .Err .CryptoFailed
  | _ => .Err .CryptoFailed

/-- Modelled from the spec: v3 public signing, ECDSA P-384 of the SHA-384 of
`PAE(compressed_public_key, header, message, footer, implicit)`, with the
payload `message ‖ signature` and a signature `r ‖ s` of 96 bytes. -/
def v3PublicSign (c : Primitives) (p : packet) (key : ByteArr 48) (implicit : Bytes) :
    Exec message :=
  newMessageFromPayloadAndFooter
    (.v3Public p.content (c.ecdsaSign key (c.sha384
      (PAE [(c.p384Public key).val, strBytes V3Public.Header, p.content, p.footer, implicit]))))
    p.footer

/-- Modelled from the spec: v3 public verification. -/
def v3PublicVerify (c : Primitives) (m : message) (key : ByteArr 49) (implicit : Bytes) :
    Result packet :=
  match m.p with
  | .v3Public content signature =>
    if c.ecdsaVerify key (c.sha384
        (PAE [key.val, strBytes m.header, content, m.footer, implicit])) signature = true then
      .Ok ⟨content, m.footer⟩
    else .Err .CryptoFailed
  | _ => .Err .CryptoFailed

/-- The method `v2Verify`; the primitives and the claims coding are
arguments, as for the five methods that follow. -/
def message.v2Verify (c : Primitives) (j : ClaimsCodec) (m : message) (key : ByteArr 32) :
    Result Token :=
  AndThen (v2PublicVerify c m key) (packet.token j)

def message.v2Decrypt (c : Primitives) (j : ClaimsCodec) (m : message) (key : ByteArr 32) :
    Result Token :=
  AndThen (v2LocalDecrypt c m key) (packet.token j)

def message.v3Verify (c : Primitives) (j : ClaimsCodec) (m : message) (key : ByteArr 49)
    (implicit : Bytes) : Result Token :=
  AndThen (v3PublicVerify c m key implicit) (packet.token j)

def message.v3Decrypt (c : Primitives) (j : ClaimsCodec) (m : message) (key : ByteArr 32)
    (implicit : Bytes) : Result Token :=
  AndThen (v3LocalDecrypt c m key implicit) (packet.token j)

def message.v4Verify (c : Primitives) (j : ClaimsCodec) (m : message) (key : ByteArr 32)
    (implicit : Bytes) : Result Token :=
  AndThen (v4PublicVerify c m key implicit) (packet.token j)

def message.v4Decrypt (c : Primitives) (j : ClaimsCodec) (m : message) (key : ByteArr 32)
    (implicit : Bytes) : Result Token :=
  AndThen (v4LocalDecrypt c m key implicit) (packet.token j)

/-- A Go result pair `(value, error)` made from a `t.Result`. -/
def Result.pair {α : Type} : Result α → Except Error α
  | .Ok a => .ok a
  | .Err e => .error e

/-- A stand-in for the exported `NewMessage` in the witnesses: the result of
`newMessage` as a Go pair. -/
def exportedNewMessage (P : Protocol) (s : Str) : Except Error message :=
  match newMessage P s with
  | .done r => r.pair
  | .panic _ => .error .CryptoFailed

/-- Primitives for the witnesses: hashes and signatures of zero bytes, stream
ciphers that leave the data as it is, an AEAD that appends 16 zero bytes, and
a verification that accepts the signature of zero bytes. -/
def samplePrimitives : Primitives where
  blake2b := fun len _ _ => ⟨List.replicate len 0, by simp⟩
  xchacha20 := fun _ _ d => d
  xchacha20_inverse := fun _ _ _ => rfl
  aeadSeal := fun _ _ p _ => p ++ List.replicate 16 0
  aeadOpen := fun _ _ ct _ => some (ct.take (ct.length - 16))
  aeadOpen_aeadSeal := by intro _ _ p _; simp
  aeadSeal_length := by intro _ _ p _; simp
  ed25519Valid := fun _ => true
  ed25519Sign := fun _ _ => ⟨List.replicate 64 0, by simp⟩
  ed25519Verify := fun _ _ s => decide (s.val = List.replicate 64 0)
  ed25519Verify_ed25519Sign := by intro _ _ _; simp
  hkdfSha384 := fun len _ _ => ⟨List.replicate len 0, by simp⟩
  aes256Ctr := fun _ _ d => d
  aes256Ctr_inverse := fun _ _ _ => rfl
  hmacSha384 := fun _ _ => ⟨List.replicate 48 0, by simp⟩
  sha384 := fun _ => ⟨List.replicate 48 0, by simp⟩
  p384Valid := fun _ => true
  p384Public := fun _ => ⟨List.replicate 49 0, by simp⟩
  ecdsaSign := fun _ _ => ⟨List.replicate 96 0, by simp⟩
  ecdsaVerify := fun _ _ s => decide (s.val = List.replicate 96 0)
  ecdsaVerify_ecdsaSign := by intro _ _ _; simp

/-- A claims coding for the witnesses: `key:value,` for every claim, decoded
for the claims `exp:2022` and for no claims. -/
def sampleCodec : ClaimsCodec where
  encode := fun claims =>
    strBytes (claims.foldr (fun kv acc => kv.1 ++ [':'] ++ kv.2 ++ [','] ++ acc) [])
  decode := fun b =>
    if b = strBytes "exp:2022,".toList then some [("exp".toList, "2022".toList)]
    else if b = [] then some []
    else none

/-- A token for the witnesses, with the claim `exp:2022` and the footer
`foob`. -/
def sampleToken : Token := ⟨[("exp".toList, "2022".toList)], [102, 111, 111, 98]⟩

/-! ## Splitting on dots -/

theorem Split_cons_dot (cs : Str) : Split ('.' :: cs) = [] :: Split cs := by
  simp [Split]

theorem Split_cons_of_ne (c : Char) (cs : Str) (hc : c ≠ '.') :
    Split (c :: cs) =
      match Split cs with
      | [] => [[c]]
      | p :: ps => (c :: p) :: ps := by
  simp [Split, hc]

theorem Split_ne_nil (s : Str) : Split s ≠ [] := by
  induction s with
  | nil => simp [Split]
  | cons c cs ih =>
    unfold Split
    split
    · simp
    · split <;> simp

theorem Split_length (s : Str) : (Split s).length = s.count '.' + 1 := by
  induction s with
  | nil => simp [Split]
  | cons c cs ih =>
    unfold Split
    by_cases hc : c = '.'
    · subst hc
      simp [ih]
    · have hc' : ¬ (c == '.') = true := by simpa using hc
      rw [if_neg hc, List.count_cons, if_neg hc']
      cases hs : Split cs with
      | nil => exact absurd hs (Split_ne_nil cs)
      | cons p ps =>
        rw [hs] at ih
        simpa using ih

theorem Split_dotFree (a : Str) (ha : dotFree a) : Split a = [a] := by
  induction a with
  | nil => simp [Split]
  | cons c cs ih =>
    have hc : c ≠ '.' := ha c (by simp)
    have hcs : dotFree cs := fun x hx => ha x (by simp [hx])
    rw [Split_cons_of_ne c cs hc, ih hcs]

theorem Split_append_dot (a rest : Str) (ha : dotFree a) :
    Split (a ++ '.' :: rest) = a :: Split rest := by
  induction a with
  | nil => simp [Split_cons_dot]
  | cons c cs ih =>
    have hc : c ≠ '.' := ha c (by simp)
    have hcs : dotFree cs := fun x hx => ha x (by simp [hx])
    rw [List.cons_append, Split_cons_of_ne c _ hc, ih hcs]

/-! ## Facts about `deconstructToken` -/

theorem deconstructToken_three (token a b c : Str) (h : Split token = [a, b, c]) :
    deconstructToken token = .done (.Ok ⟨a ++ ['.'] ++ b ++ ['.'], c, []⟩) := by
  simp [deconstructToken, h, index, Exec.andThen]

theorem deconstructToken_four (token a b c d : Str) (h : Split token = [a, b, c, d]) :
    deconstructToken token = .done (.Ok ⟨a ++ ['.'] ++ b ++ ['.'], c, d⟩) := by
  simp [deconstructToken, h, index, Exec.andThen]

theorem deconstructToken_other (token : Str)
    (h : (Split token).length ≠ 3 ∧ (Split token).length ≠ 4) :
    deconstructToken token = .done (.Err (errorMessageParts (Split token).length)) := by
  simp [deconstructToken, h]

theorem length_three_or_four {α : Type} (l : List α) (h : l.length = 3 ∨ l.length = 4) :
    (∃ a b c, l = [a, b, c]) ∨ (∃ a b c d, l = [a, b, c, d]) := by
  match l, h with
  | [a, b, c], _ => exact Or.inl ⟨a, b, c, rfl⟩
  | [a, b, c, d], _ => exact Or.inr ⟨a, b, c, d, rfl⟩
  | [], h => simp at h
  | [_], h => simp at h
  | [_, _], h => simp at h
  | _ :: _ :: _ :: _ :: _ :: _, h => simp at h

theorem deconstructToken_segments (token : Str)
    (h : (Split token).length = 3 ∨ (Split token).length = 4) :
    deconstructToken token = .done (.Ok
      ⟨(Split token).getD 0 [] ++ ['.'] ++ (Split token).getD 1 [] ++ ['.'],
       (Split token).getD 2 [],
       if (Split token).length = 4 then (Split token).getD 3 [] else []⟩) := by
  rcases length_three_or_four _ h with ⟨a, b, c, hs⟩ | ⟨a, b, c, d, hs⟩
  · rw [deconstructToken_three token a b c hs, hs]; simp
  · rw [deconstructToken_four token a b c d hs, hs]; simp

/-! ## Facts about the encoding, the headers and the payloads -/

theorem alphabet_getD_ne_dot (k : Fin 64) : alphabet.getD k.val 'A' ≠ '.' := by
  revert k
  decide

theorem encodeSextet_ne_dot (n : Nat) : encodeSextet n ≠ '.' :=
  alphabet_getD_ne_dot ⟨n % 64, Nat.mod_lt n (by decide)⟩

theorem Encode_dotFree (b : Bytes) : dotFree (Encode b) := by
  induction b using Encode.induct with
  | case1 => intro c hc; simp [Encode] at hc
  | case2 a =>
    intro c hc
    simp only [Encode, List.mem_cons, List.mem_singleton, List.not_mem_nil, or_false] at hc
    rcases hc with h | h <;> rw [h] <;> exact encodeSextet_ne_dot _
  | case3 a b =>
    intro c hc
    simp only [Encode, List.mem_cons, List.mem_singleton, List.not_mem_nil, or_false] at hc
    rcases hc with h | h | h <;> rw [h] <;> exact encodeSextet_ne_dot _
  | case4 a b c rest ih =>
    intro x hx
    simp only [Encode, List.mem_cons] at hx
    rcases hx with h | h | h | h | h
    · rw [h]; exact encodeSextet_ne_dot _
    · rw [h]; exact encodeSextet_ne_dot _
    · rw [h]; exact encodeSextet_ne_dot _
    · rw [h]; exact encodeSextet_ne_dot _
    · exact ih x h

theorem Encode_ne_nil (b : Bytes) (hb : b ≠ []) : Encode b ≠ [] := by
  match b, hb with
  | [_], _ => simp [Encode]
  | [_, _], _ => simp [Encode]
  | _ :: _ :: _ :: _, _ => simp [Encode]

theorem bytes_ne_nil (p : payload) : p.bytes ≠ [] := by
  intro h
  have hlen : p.bytes.length = 0 := by rw [h]; rfl
  cases p with
  | v2Local nonce cipherText =>
    have := nonce.property
    simp only [payload.bytes, List.length_append] at hlen
    omega
  | v2Public message signature =>
    have := signature.property
    simp only [payload.bytes, List.length_append] at hlen
    omega
  | v3Local nonce cipherText mac =>
    have := nonce.property
    simp only [payload.bytes, List.length_append] at hlen
    omega
  | v3Public message signature =>
    have := signature.property
    simp only [payload.bytes, List.length_append] at hlen
    omega
  | v4Local nonce cipherText tag =>
    have := nonce.property
    simp only [payload.bytes, List.length_append] at hlen
    omega
  | v4Public message signature =>
    have := signature.property
    simp only [payload.bytes, List.length_append] at hlen
    omega

theorem Version_str_dotFree (v : Version) : dotFree v.str := by
  cases v <;> decide

theorem Purpose_str_dotFree (p : Purpose) : dotFree p.str := by
  cases p <;> decide

theorem Split_Header_append (P : Protocol) (x : Str) :
    Split (P.Header ++ x) = P.version.str :: P.purpose.str :: Split x := by
  have h : P.Header ++ x = P.version.str ++ '.' :: (P.purpose.str ++ '.' :: x) := by
    simp [Protocol.Header]
  rw [h, Split_append_dot _ _ (Version_str_dotFree _),
    Split_append_dot _ _ (Purpose_str_dotFree _)]

theorem Header_version (P Q : Protocol) (h : P.Header = Q.Header) : P.version = Q.version := by
  rcases P with ⟨v, p⟩
  rcases Q with ⟨w, q⟩
  cases v <;> cases w <;> cases p <;> cases q <;> first | rfl | (exact absurd h (by decide))

theorem encoded_empty_footer (m : message) (h : m.footer.length = 0) :
    m.encoded = m.header ++ Encode m.p.bytes := by
  simp [message.encoded, h]

theorem encoded_nonempty_footer (m : message) (h : m.footer.length ≠ 0) :
    m.encoded = m.header ++ Encode m.p.bytes ++ ['.'] ++ Encode m.footer := by
  simp [message.encoded, h]

theorem Split_encoded (m : message) :
    Split m.encoded =
      if m.footer.length = 0 then [m.protocol.version.str, m.protocol.purpose.str, Encode m.p.bytes]
      else [m.protocol.version.str, m.protocol.purpose.str, Encode m.p.bytes, Encode m.footer] := by
  by_cases h : m.footer.length = 0
  · rw [if_pos h, encoded_empty_footer m h, message.header, Split_Header_append,
      Split_dotFree _ (Encode_dotFree _)]
  · rw [if_neg h, encoded_nonempty_footer m h, message.header]
    have e : m.protocol.Header ++ Encode m.p.bytes ++ ['.'] ++ Encode m.footer =
        m.protocol.Header ++ (Encode m.p.bytes ++ '.' :: Encode m.footer) := by simp
    rw [e, Split_Header_append, Split_append_dot _ _ (Encode_dotFree _),
      Split_dotFree _ (Encode_dotFree _)]

theorem deconstructToken_encoded (m : message) :
    deconstructToken m.encoded = .done (.Ok ⟨m.header, Encode m.p.bytes, Encode m.footer⟩) := by
  have hs := Split_encoded m
  by_cases h : m.footer.length = 0
  · rw [if_pos h] at hs
    rw [deconstructToken_three _ _ _ _ hs]
    have hf : m.footer = [] := List.length_eq_zero.mp h
    simp [message.header, Protocol.Header, hf, Encode]
  · rw [if_neg h] at hs
    rw [deconstructToken_four _ _ _ _ _ hs]
    simp [message.header, Protocol.Header]

theorem AndThen_eq_Ok {α β : Type} (res : Result α) (f : α → Result β) (b : β)
    (h : AndThen res f = .Ok b) : ∃ a, res = .Ok a ∧ f a = .Ok b := by
  cases res with
  | Err e => simp [AndThen] at h
  | Ok a => exact ⟨a, rfl, h⟩

theorem protocolForPayload_newPayload (P : Protocol) (raw : Bytes) (p : payload)
    (h : P.newPayload raw = .Ok p) : protocolForPayload p = .Ok P := by
  rcases P with ⟨v, pu⟩
  cases v <;> cases pu <;> simp only [Protocol.newPayload] at h <;>
    split at h <;> first
      | (injection h with h; subst h; rfl)
      | (exact absurd h (by simp))

theorem newMessageFromPayloadAndFooter_done (P : Protocol) (p : payload) (footer : Bytes)
    (h : protocolForPayload p = .Ok P) :
    newMessageFromPayloadAndFooter p footer = .done ⟨P, p, footer⟩ := by
  simp [newMessageFromPayloadAndFooter, h, Result.Expect, Exec.andThen]

theorem newMessage_of_parts (P : Protocol) (token : Str) (parts : deconstructedToken)
    (h : deconstructToken token = .done (.Ok parts)) :
    newMessage P token = newMessageOfParts P parts := by
  unfold newMessage newMessageOfParts
  rw [h]
  simp only [Exec.andThen, Result.IsErr, Result.Unwrap]
  by_cases hh : parts.header ≠ P.Header
  · simp only [if_pos hh, Bool.false_eq_true, if_false]
  · simp only [if_neg hh, Bool.false_eq_true, if_false]
    cases hp : AndThen (Decode parts.encodedPayload) P.newPayload with
    | Err e => rfl
    | Ok pload =>
      obtain ⟨raw, _, hraw⟩ := AndThen_eq_Ok _ _ _ hp
      have hproto := protocolForPayload_newPayload P raw pload hraw
      cases hf : Decode parts.encodedFooter with
      | Err e => rfl
      | Ok footer =>
        simp only [Result.IsErr, Result.Unwrap, Bool.false_eq_true, if_false,
          newMessageFromPayloadAndFooter_done P pload footer hproto]

theorem newMessageOfParts_eq_Ok (P : Protocol) (parts : deconstructedToken) (m : message)
    (h : newMessageOfParts P parts = .done (.Ok m)) :
    parts.header = P.Header ∧
    (∃ raw, Decode parts.encodedPayload = .Ok raw ∧ P.newPayload raw = .Ok m.p) ∧
    Decode parts.encodedFooter = .Ok m.footer ∧ m.protocol = P := by
  unfold newMessageOfParts at h
  by_cases hh : parts.header ≠ P.Header
  · rw [if_pos hh] at h
    cases h
  · rw [if_neg hh] at h
    cases hp : AndThen (Decode parts.encodedPayload) P.newPayload with
    | Err e => rw [hp] at h; cases h
    | Ok pload =>
      cases hf : Decode parts.encodedFooter with
      | Err e => rw [hp, hf] at h; cases h
      | Ok footer =>
        rw [hp, hf] at h
        injection h with h
        injection h with h
        subst h
        exact ⟨not_not.mp hh, AndThen_eq_Ok _ _ _ hp, rfl, rfl⟩

theorem newMessageOfParts_done (P : Protocol) (parts : deconstructedToken) :
    ∃ r, newMessageOfParts P parts = .done r := by
  unfold newMessageOfParts
  split
  · exact ⟨_, rfl⟩
  · split
    · exact ⟨_, rfl⟩
    · split <;> exact ⟨_, rfl⟩

theorem deconstructToken_done (token : Str) : ∃ r, deconstructToken token = .done r := by
  by_cases h : (Split token).length = 3 ∨ (Split token).length = 4
  · exact ⟨_, deconstructToken_segments token h⟩
  · exact ⟨_, deconstructToken_other token (by omega)⟩

theorem newMessage_other (P : Protocol) (token : Str)
    (h : (Split token).length ≠ 3 ∧ (Split token).length ≠ 4) :
    newMessage P token = .done (.Err (errorMessageParts (Split token).length)) := by
  unfold newMessage
  rw [deconstructToken_other token h]
  rfl

theorem newMessage_done (P : Protocol) (token : Str) : ∃ r, newMessage P token = .done r := by
  by_cases h : (Split token).length = 3 ∨ (Split token).length = 4
  · rw [newMessage_of_parts P token _ (deconstructToken_segments token h)]
    exact newMessageOfParts_done P _
  · exact ⟨_, newMessage_other P token (by omega)⟩

/-- A payload segment that does not decode, under the right header, gives the
token error around the decoding error. -/
theorem newMessage_bad_payload (P : Protocol) (token : Str) (e : Error)
    (hlen : (Split token).length = 3 ∨ (Split token).length = 4)
    (hhdr : (Split token).getD 0 [] ++ ['.'] ++ (Split token).getD 1 [] ++ ['.'] = P.Header)
    (hdec : Decode ((Split token).getD 2 []) = .Err e) :
    newMessage P token = .done (.Err (newTokenError e)) := by
  rw [newMessage_of_parts P token _ (deconstructToken_segments token hlen)]
  unfold newMessageOfParts
  rw [if_neg (not_not.mpr hhdr)]
  simp only [hdec, AndThen]

/-- A footer segment that does not decode, under the right header and after a
payload that is accepted, gives the decoding error as it is. -/
theorem newMessage_bad_footer (P : Protocol) (token : Str) (raw : Bytes) (p : payload)
    (e : Error) (hlen : (Split token).length = 4)
    (hhdr : (Split token).getD 0 [] ++ ['.'] ++ (Split token).getD 1 [] ++ ['.'] = P.Header)
    (hraw : Decode ((Split token).getD 2 []) = .Ok raw) (hp : P.newPayload raw = .Ok p)
    (hdec : Decode ((Split token).getD 3 []) = .Err e) :
    newMessage P token = .done (.Err e) := by
  rw [newMessage_of_parts P token _ (deconstructToken_segments token (Or.inr hlen))]
  unfold newMessageOfParts
  rw [if_neg (not_not.mpr hhdr)]
  simp only [hraw, AndThen, hp, hlen, if_true, hdec]

theorem index_done (parts : List Str) (i : Nat) (h : i < parts.length) :
    ∃ s, index parts i = .done s := by
  unfold index
  rw [List.getElem?_eq_getElem h]
  exact ⟨_, rfl⟩

/-! ## Facts about `validate` -/

theorem validateLoop_ok_iff {ε : Type} (rs : List (Rule ε)) (t t' : Token) :
    validateLoop rs t = .ok t' ↔ t' = t ∧ ∀ r ∈ rs, r t = none := by
  induction rs with
  | nil =>
    simp only [validateLoop, List.not_mem_nil, false_implies, implies_true, and_true]
    constructor
    · intro h; injection h with h; exact h.symm
    · intro h; rw [h]
  | cons r rest ih =>
    cases hr : r t with
    | some err => simp [validateLoop, hr]
    | none => simp [validateLoop, hr, ih]

theorem validateLoop_first_failure {ε : Type} (pre : List (Rule ε)) (r : Rule ε)
    (post : List (Rule ε)) (t : Token) (e : ε)
    (hpre : ∀ r' ∈ pre, r' t = none) (hr : r t = some e) :
    validateLoop (pre ++ r :: post) t = .error e := by
  induction pre with
  | nil => simp [validateLoop, hr]
  | cons q qs ih =>
    have hq : q t = none := hpre q (by simp)
    have hqs : ∀ r' ∈ qs, r' t = none := fun r' h' => hpre r' (by simp [h'])
    simp [validateLoop, hq, ih hqs]

theorem validateLoop_error {ε : Type} (rs : List (Rule ε)) (t : Token) (e : ε)
    (h : validateLoop rs t = .error e) :
    ∃ pre r post, rs = pre ++ r :: post ∧ (∀ r' ∈ pre, r' t = none) ∧ r t = some e := by
  induction rs with
  | nil => simp [validateLoop] at h
  | cons q qs ih =>
    cases hq : q t with
    | some err =>
      simp only [validateLoop, hq] at h
      injection h with h
      subst h
      exact ⟨[], q, qs, rfl, by simp, hq⟩
    | none =>
      simp only [validateLoop, hq] at h
      obtain ⟨pre, r, post, hrs, hpre, hr⟩ := ih h
      refine ⟨q :: pre, r, post, by simp [hrs], ?_, hr⟩
      intro r' hr'
      rcases List.mem_cons.mp hr' with h' | h'
      · rw [h']; exact hq
      · exact hpre r' h'

theorem validateLoop_total {ε : Type} (rs : List (Rule ε)) (t : Token) :
    validateLoop rs t = .ok t ∨ ∃ e, validateLoop rs t = .error e := by
  induction rs with
  | nil => exact Or.inl rfl
  | cons q qs ih =>
    cases hq : q t with
    | some err => exact Or.inr ⟨err, by simp [validateLoop, hq]⟩
    | none => simpa [validateLoop, hq] using ih

/-! ## Claims about the framing of tokens -/

/-- C1: for every protocol and every token with 3 or 4 dot-separated segments,
if `segments[0] + "." + segments[1] + "."` is not the header of the protocol
then `newMessage` returns the wrong-header error, whatever the payload and
footer segments are. -/
theorem newMessage_wrong_header (P : Protocol) (token : Str)
    (hlen : (Split token).length = 3 ∨ (Split token).length = 4)
    (hne : (Split token).getD 0 [] ++ ['.'] ++ (Split token).getD 1 [] ++ ['.'] ≠ P.Header) :
    newMessage P token = .done (.Err (errorMessageHeader P
      ((Split token).getD 0 [] ++ ['.'] ++ (Split token).getD 1 [] ++ ['.']))) := by
  rw [newMessage_of_parts P token _ (deconstructToken_segments token hlen)]
  unfold newMessageOfParts
  exact if_pos hne

/-- Witness of C1: a `v3.local` header, with a payload segment that is not
base64url, parsed as `v4.local`. -/
theorem newMessage_wrong_header_witness :
    newMessage V4Local "v3.local.=!.=".toList =
      .done (.Err (errorMessageHeader V4Local "v3.local.".toList)) :=
  newMessage_wrong_header V4Local "v3.local.=!.=".toList (by decide) (by decide)

/-- C2: `deconstructToken` succeeds exactly when the token splits into 3 or 4
segments, that is when it has 2 or 3 dots; on every other string it returns
the malformed-parts error, and so does `newMessage` for every protocol. -/
theorem deconstructToken_succeeds_iff (token : Str) :
    (Split token).length = token.count '.' + 1 ∧
    ((∃ d, deconstructToken token = .done (.Ok d)) ↔
      ((Split token).length = 3 ∨ (Split token).length = 4)) ∧
    ((∃ d, deconstructToken token = .done (.Ok d)) ↔
      (token.count '.' = 2 ∨ token.count '.' = 3)) ∧
    (¬ ((Split token).length = 3 ∨ (Split token).length = 4) →
      deconstructToken token = .done (.Err (errorMessageParts (Split token).length)) ∧
      ∀ P : Protocol,
        newMessage P token = .done (.Err (errorMessageParts (Split token).length))) := by
  have hcount := Split_length token
  have hiff : (∃ d, deconstructToken token = .done (.Ok d)) ↔
      ((Split token).length = 3 ∨ (Split token).length = 4) := by
    constructor
    · rintro ⟨d, hd⟩
      by_contra hno
      rw [deconstructToken_other token (by omega)] at hd
      cases hd
    · intro h
      exact ⟨_, deconstructToken_segments token h⟩
  refine ⟨hcount, hiff, ?_, ?_⟩
  · rw [hiff, hcount]; omega
  · intro hno
    exact ⟨deconstructToken_other token (by omega),
      fun P => newMessage_other P token (by omega)⟩

/-- Witness of C2: the empty string, a string with one dot and a string with
four dots are rejected with the number of their segments. -/
theorem deconstructToken_succeeds_iff_witness :
    deconstructToken [] = .done (.Err (errorMessageParts 1)) ∧
    newMessage V4Local "v4.local".toList = .done (.Err (errorMessageParts 2)) ∧
    newMessage V4Local "v4.local.AA.AA.".toList = .done (.Err (errorMessageParts 5)) :=
  ⟨((deconstructToken_succeeds_iff []).2.2.2 (by decide)).1,
   ((deconstructToken_succeeds_iff "v4.local".toList).2.2.2 (by decide)).2 V4Local,
   ((deconstructToken_succeeds_iff "v4.local.AA.AA.".toList).2.2.2 (by decide)).2 V4Local⟩

/-- C3: `encoded()` is the header followed by the base64url of the payload
bytes when the footer is empty, and that string followed by a dot and the
base64url of the footer otherwise; with an empty footer the result has three
segments and does not end in a dot. -/
theorem encoded_spec (m : message) :
    (m.footer.length = 0 → m.encoded = m.header ++ Encode m.p.bytes) ∧
    (m.footer.length ≠ 0 →
      m.encoded = m.header ++ Encode m.p.bytes ++ ['.'] ++ Encode m.footer) ∧
    (m.footer.length = 0 →
      m.encoded.getLast? ≠ some '.' ∧ (Split m.encoded).length = 3) := by
  refine ⟨encoded_empty_footer m, encoded_nonempty_footer m, fun h => ⟨?_, ?_⟩⟩
  · rw [encoded_empty_footer m h,
      List.getLast?_append_of_ne_nil _ (Encode_ne_nil _ (bytes_ne_nil m.p))]
    intro hl
    exact Encode_dotFree _ _ (List.mem_of_getLast?_eq_some hl) rfl
  · rw [Split_encoded m, if_pos h]
    rfl

/-- Witness of C3: a message without footer and one with the footer `foob`. -/
theorem encoded_spec_witness :
    (message.mk V4Public zeroPublicPayload []).encoded =
      "v4.public.".toList ++ List.replicate 86 'A' ∧
    (message.mk V4Public zeroPublicPayload [102, 111, 111, 98]).encoded =
      "v4.public.".toList ++ List.replicate 86 'A' ++ ".Zm9vYg".toList ∧
    (message.mk V4Public zeroPublicPayload []).encoded.getLast? ≠ some '.' ∧
    (Split (message.mk V4Public zeroPublicPayload []).encoded).length = 3 :=
  ⟨(encoded_spec ⟨V4Public, zeroPublicPayload, []⟩).1 (by decide),
   (encoded_spec ⟨V4Public, zeroPublicPayload, [102, 111, 111, 98]⟩).2.1 (by decide),
   (encoded_spec ⟨V4Public, zeroPublicPayload, []⟩).2.2 (by decide)⟩

/-- C4: when `newMessage` succeeds with `m`, the token has 3 or 4 segments,
the payload of `m` is `newPayload` of the base64url decoding of segment 2, and
the unsafe footer of `m` is the decoding of segment 3 when there are 4
segments and is empty when there are 3. -/
theorem newMessage_ok_fields (P : Protocol) (token : Str) (m : message)
    (h : newMessage P token = .done (.Ok m)) :
    ((Split token).length = 3 ∨ (Split token).length = 4) ∧
    (∃ raw, Decode ((Split token).getD 2 []) = .Ok raw ∧ P.newPayload raw = .Ok m.p) ∧
    ((Split token).length = 4 → Decode ((Split token).getD 3 []) = .Ok m.unsafeFooter) ∧
    ((Split token).length = 3 → m.unsafeFooter = []) := by
  have hlen : (Split token).length = 3 ∨ (Split token).length = 4 := by
    by_contra hno
    rw [newMessage_other P token (by omega)] at h
    cases h
  rw [newMessage_of_parts P token _ (deconstructToken_segments token hlen)] at h
  obtain ⟨_, hpayload, hfooter, _⟩ := newMessageOfParts_eq_Ok P _ m h
  refine ⟨hlen, hpayload, fun h4 => ?_, fun h3 => ?_⟩
  · simpa only [h4, if_true] using hfooter
  · have h4 : ¬ (Split token).length = 4 := by omega
    simp only [h4, if_false, Decode] at hfooter
    injection hfooter with hfooter
    exact hfooter.symm

/-- Witness of C4: a `v4.public` token of 4 segments with the footer `foob`. -/
theorem newMessage_ok_fields_witness :
    (∃ raw, Decode ((Split ("v4.public.".toList ++ List.replicate 86 'A' ++
        ".Zm9vYg".toList)).getD 2 []) = .Ok raw ∧
      V4Public.newPayload raw = .Ok zeroPublicPayload) ∧
    Decode ((Split ("v4.public.".toList ++ List.replicate 86 'A' ++
        ".Zm9vYg".toList)).getD 3 []) = .Ok [102, 111, 111, 98] :=
  have h := newMessage_ok_fields V4Public
    ("v4.public.".toList ++ List.replicate 86 'A' ++ ".Zm9vYg".toList)
    ⟨V4Public, zeroPublicPayload, [102, 111, 111, 98]⟩ (by decide)
  ⟨h.2.1, h.2.2.1 (by decide)⟩

/-- C5 (evaluation at the failing input): with a well-formed `v4.public`
payload and the footer segment `=`, which is not base64url, `newMessage`
returns the bare decoding error, not the token error that `newTokenError`
builds around it; the same `=` as payload segment does give the token error. -/
theorem newMessage_bad_footer_not_token_error :
    Decode "=".toList = .Err .BadEncoding ∧
    newMessage V4Public ("v4.public.".toList ++ List.replicate 86 'A' ++ ".=".toList) =
      .done (.Err .BadEncoding) ∧
    newMessage V4Public ("v4.public.".toList ++ List.replicate 86 'A' ++ ".=".toList) ≠
      .done (.Err (newTokenError .BadEncoding)) ∧
    newMessage V4Public "v4.public.=".toList = .done (.Err (newTokenError .BadEncoding)) := by
  decide

/-- C6: a message of one version, serialised with `encoded()` and parsed with
a protocol of another version, is rejected with the wrong-header error. -/
theorem newMessage_wrong_version (m : message) (Q : Protocol)
    (h : m.protocol.version ≠ Q.version) :
    newMessage Q m.encoded = .done (.Err (errorMessageHeader Q m.header)) := by
  rw [newMessage_of_parts Q _ _ (deconstructToken_encoded m)]
  unfold newMessageOfParts
  have hne : m.header ≠ Q.Header := fun e => h (Header_version _ _ e)
  rw [if_pos hne]

/-- Witness of C6: a `v4.public` message with the footer `foob`, parsed as
`v3.public`. -/
theorem newMessage_wrong_version_witness :
    newMessage V3Public (message.mk V4Public zeroPublicPayload [102, 111, 111, 98]).encoded =
      .done (.Err (errorMessageHeader V3Public "v4.public.".toList)) :=
  newMessage_wrong_version ⟨V4Public, zeroPublicPayload, [102, 111, 111, 98]⟩ V3Public
    (by decide)

/-- C7: `newMessage` never panics: it returns `Ok` or `Err` on every protocol
and every string. The indexings `parts[0]`, `parts[1]`, `parts[2]` are in
bounds when there are 3 or 4 parts and `parts[3]` when there are 4, so
`deconstructToken` never panics, and the `Expect` of
`newMessageFromPayloadAndFooter` does not panic on a payload that
`newPayload` returned. -/
theorem newMessage_never_panics (P : Protocol) (token : Str) :
    ((∃ m, newMessage P token = .done (.Ok m)) ∨ (∃ e, newMessage P token = .done (.Err e))) ∧
    (∃ r, deconstructToken token = .done r) ∧
    (((Split token).length = 3 ∨ (Split token).length = 4) →
      ∀ i, i < 3 → ∃ s, index (Split token) i = .done s) ∧
    ((Split token).length = 4 → ∃ s, index (Split token) 3 = .done s) ∧
    (∀ raw p footer, P.newPayload raw = .Ok p →
      newMessageFromPayloadAndFooter p footer = .done ⟨P, p, footer⟩) := by
  refine ⟨?_, deconstructToken_done token, ?_, ?_, ?_⟩
  · obtain ⟨r, hr⟩ := newMessage_done P token
    cases r with
    | Err e => exact Or.inr ⟨e, hr⟩
    | Ok m => exact Or.inl ⟨m, hr⟩
  · intro hlen i hi
    exact index_done _ _ (by omega)
  · intro hlen
    exact index_done _ _ (by omega)
  · intro raw p footer hp
    exact newMessageFromPayloadAndFooter_done P p footer
      (protocolForPayload_newPayload P raw p hp)

/-- Witness of C7: a token of 4 segments whose payload `newPayload` accepts. -/
theorem newMessage_never_panics_witness :
    (∃ s, index (Split ("v4.public.".toList ++ List.replicate 86 'A' ++ ".Zm9vYg".toList)) 2
      = .done s) ∧
    (∃ s, index (Split ("v4.public.".toList ++ List.replicate 86 'A' ++ ".Zm9vYg".toList)) 3
      = .done s) ∧
    newMessageFromPayloadAndFooter zeroPublicPayload [102] =
      .done ⟨V4Public, zeroPublicPayload, [102]⟩ :=
  have h := newMessage_never_panics V4Public
    ("v4.public.".toList ++ List.replicate 86 'A' ++ ".Zm9vYg".toList)
  ⟨h.2.2.1 (by decide) 2 (by decide), h.2.2.2.1 (by decide),
   h.2.2.2.2 (List.replicate 64 0) zeroPublicPayload [102] (by decide)⟩

/-! ## Claims about the parser -/

/-- C8: `validate` applies the rules in slice order and stops at the first
failure: it returns the token itself, without error, exactly when every rule
returns nil on it; otherwise it returns the error of the first rule that
fails, whatever the rules after that one are. -/
theorem validate_spec {ε : Type} (rs : List (Rule ε)) (t : Token) :
    ((Parser.mk rs).validate t = .ok t ↔ ∀ r ∈ rs, r t = none) ∧
    (∀ t', (Parser.mk rs).validate t = .ok t' → t' = t) ∧
    (∀ pre r post e, rs = pre ++ r :: post → (∀ r' ∈ pre, r' t = none) → r t = some e →
      (Parser.mk rs).validate t = .error e ∧
      ∀ post', (Parser.mk (pre ++ r :: post')).validate t = .error e) ∧
    ((¬ ∀ r ∈ rs, r t = none) →
      ∃ pre r post e, rs = pre ++ r :: post ∧ (∀ r' ∈ pre, r' t = none) ∧ r t = some e ∧
        (Parser.mk rs).validate t = .error e) := by
  refine ⟨?_, ?_, ?_, ?_⟩
  · simp [Parser.validate, validateLoop_ok_iff]
  · intro t' h
    exact ((validateLoop_ok_iff rs t t').mp h).1
  · intro pre r post e hrs hpre hr
    refine ⟨?_, fun post' => validateLoop_first_failure pre r post' t e hpre hr⟩
    rw [hrs]
    exact validateLoop_first_failure pre r post t e hpre hr
  · intro hno
    rcases validateLoop_total rs t with hok | ⟨e, he⟩
    · exact absurd ((validateLoop_ok_iff rs t t).mp hok).2 hno
    · obtain ⟨pre, r, post, hrs, hpre, hr⟩ := validateLoop_error rs t e he
      exact ⟨pre, r, post, e, hrs, hpre, hr, he⟩

/-- Witness of C8: three rules on a token with a footer; the first accepts
every token, the second and the third reject this one. -/
theorem validate_spec_witness :
    (Parser.mk [fun _ => none, emptyFooterRule 7, emptyFooterRule 9]).validate ⟨[], [1]⟩ =
      .error 7 :=
  ((validate_spec [fun _ => none, emptyFooterRule 7, emptyFooterRule 9] ⟨[], [1]⟩).2.2.1
    [fun _ => none] (emptyFooterRule 7) [emptyFooterRule 9] 7 rfl
    (by intro r' h'; rw [List.mem_singleton.mp h']) rfl).1

/-- C9: `ParseV4Local` returns the error of `NewMessage` when parsing fails,
else the error of `V4Decrypt` when decryption fails, else what `validate`
returns on the decrypted token; it returns a token only when the three stages
succeed, and then the token that `V4Decrypt` produced. The same holds for
`ParseV4Public` with `V4Public` and `V4Verify`. -/
theorem Parse_stages {ε Message K : Type}
    (NewMessage : Protocol → Str → Except ε Message)
    (V4Decrypt V4Verify : Message → K → Bytes → Except ε Token)
    (p : Parser ε) (key : K) (tainted : Str) (implicit : Bytes) :
    ((∀ e, NewMessage V4Local tainted = .error e →
        p.ParseV4Local NewMessage V4Decrypt key tainted implicit = .error e) ∧
      (∀ m e, NewMessage V4Local tainted = .ok m → V4Decrypt m key implicit = .error e →
        p.ParseV4Local NewMessage V4Decrypt key tainted implicit = .error e) ∧
      (∀ m tok, NewMessage V4Local tainted = .ok m → V4Decrypt m key implicit = .ok tok →
        p.ParseV4Local NewMessage V4Decrypt key tainted implicit = p.validate tok) ∧
      (∀ tok, p.ParseV4Local NewMessage V4Decrypt key tainted implicit = .ok tok →
        ∃ m, NewMessage V4Local tainted = .ok m ∧ V4Decrypt m key implicit = .ok tok ∧
          ∀ r ∈ p.rules, r tok = none)) ∧
    ((∀ e, NewMessage V4Public tainted = .error e →
        p.ParseV4Public NewMessage V4Verify key tainted implicit = .error e) ∧
      (∀ m e, NewMessage V4Public tainted = .ok m → V4Verify m key implicit = .error e →
        p.ParseV4Public NewMessage V4Verify key tainted implicit = .error e) ∧
      (∀ m tok, NewMessage V4Public tainted = .ok m → V4Verify m key implicit = .ok tok →
        p.ParseV4Public NewMessage V4Verify key tainted implicit = p.validate tok) ∧
      (∀ tok, p.ParseV4Public NewMessage V4Verify key tainted implicit = .ok tok →
        ∃ m, NewMessage V4Public tainted = .ok m ∧ V4Verify m key implicit = .ok tok ∧
          ∀ r ∈ p.rules, r tok = none)) := by
  refine ⟨⟨?_, ?_, ?_, ?_⟩, ⟨?_, ?_, ?_, ?_⟩⟩
  · intro e h; simp [Parser.ParseV4Local, h]
  · intro m e h hd; simp [Parser.ParseV4Local, h, hd]
  · intro m tok h hd; simp [Parser.ParseV4Local, h, hd]
  · intro tok h
    unfold Parser.ParseV4Local at h
    cases hm : NewMessage V4Local tainted with
    | error e => rw [hm] at h; cases h
    | ok m =>
      cases hd : V4Decrypt m key implicit with
      | error e => rw [hm] at h; simp only [hd] at h; cases h
      | ok tok' =>
        rw [hm] at h
        simp only [hd] at h
        obtain ⟨ht, hall⟩ := (validateLoop_ok_iff p.rules tok' tok).mp h
        subst ht
        exact ⟨m, rfl, hd, hall⟩
  · intro e h; simp [Parser.ParseV4Public, h]
  · intro m e h hd; simp [Parser.ParseV4Public, h, hd]
  · intro m tok h hd; simp [Parser.ParseV4Public, h, hd]
  · intro tok h
    unfold Parser.ParseV4Public at h
    cases hm : NewMessage V4Public tainted with
    | error e => rw [hm] at h; cases h
    | ok m =>
      cases hd : V4Verify m key implicit with
      | error e => rw [hm] at h; simp only [hd] at h; cases h
      | ok tok' =>
        rw [hm] at h
        simp only [hd] at h
        obtain ⟨ht, hall⟩ := (validateLoop_ok_iff p.rules tok' tok).mp h
        subst ht
        exact ⟨m, rfl, hd, hall⟩

/-- Witness of C9: a parse error, a decryption error and a rule error, each
returned by the stage that fails first. -/
theorem Parse_stages_witness :
    (Parser.mk [emptyFooterRule 7]).ParseV4Local sampleNewMessage sampleOpen 4
      "v3.local.abc".toList [1] = .error 1 ∧
    (Parser.mk [emptyFooterRule 7]).ParseV4Local sampleNewMessage sampleOpen 4
      "v4.local.abc".toList [1] = .error 2 ∧
    (Parser.mk [emptyFooterRule 7]).ParseV4Local sampleNewMessage sampleOpen 3
      "v4.local.abc".toList [1] = (Parser.mk [emptyFooterRule 7]).validate ⟨[], [1]⟩ ∧
    (Parser.mk [emptyFooterRule 7]).ParseV4Public sampleNewMessage sampleOpen 3
      "v4.public.abc".toList [] = (Parser.mk [emptyFooterRule 7]).validate ⟨[], []⟩ :=
  ⟨(Parse_stages sampleNewMessage sampleOpen sampleOpen (Parser.mk [emptyFooterRule 7]) 4
      "v3.local.abc".toList [1]).1.1 1 rfl,
   (Parse_stages sampleNewMessage sampleOpen sampleOpen (Parser.mk [emptyFooterRule 7]) 4
      "v4.local.abc".toList [1]).1.2.1 "abc".toList 2 rfl rfl,
   (Parse_stages sampleNewMessage sampleOpen sampleOpen (Parser.mk [emptyFooterRule 7]) 3
      "v4.local.abc".toList [1]).1.2.2.1 "abc".toList ⟨[], [1]⟩ rfl rfl,
   (Parse_stages sampleNewMessage sampleOpen sampleOpen (Parser.mk [emptyFooterRule 7]) 3
      "v4.public.abc".toList []).2.2.2.1 "abc".toList ⟨[], []⟩ rfl rfl⟩

/-- C10: a parser made by `NewParser` has no rules: `validate` returns every
token unchanged, and `ParseV4Local` / `ParseV4Public` return what
`V4Decrypt` / `V4Verify` return on the parsed message, so they succeed exactly
when parsing and decryption or verification succeed. -/
theorem NewParser_no_rules {ε Message K : Type}
    (NewMessage : Protocol → Str → Except ε Message)
    (V4Decrypt V4Verify : Message → K → Bytes → Except ε Token)
    (key : K) (tainted : Str) (implicit : Bytes) (t : Token) :
    (NewParser : Parser ε).rules = [] ∧
    (NewParser : Parser ε).validate t = .ok t ∧
    (NewParser : Parser ε).ParseV4Local NewMessage V4Decrypt key tainted implicit =
      (match NewMessage V4Local tainted with
        | .error e => .error e
        | .ok m => V4Decrypt m key implicit) ∧
    (NewParser : Parser ε).ParseV4Public NewMessage V4Verify key tainted implicit =
      (match NewMessage V4Public tainted with
        | .error e => .error e
        | .ok m => V4Verify m key implicit) ∧
    ((∃ tok, (NewParser : Parser ε).ParseV4Local NewMessage V4Decrypt key tainted implicit
        = .ok tok) ↔
      ∃ m tok, NewMessage V4Local tainted = .ok m ∧ V4Decrypt m key implicit = .ok tok) ∧
    ((∃ tok, (NewParser : Parser ε).ParseV4Public NewMessage V4Verify key tainted implicit
        = .ok tok) ↔
      ∃ m tok, NewMessage V4Public tainted = .ok m ∧ V4Verify m key implicit = .ok tok) := by
  have hl : (NewParser : Parser ε).ParseV4Local NewMessage V4Decrypt key tainted implicit =
      (match NewMessage V4Local tainted with
        | .error e => .error e
        | .ok m => V4Decrypt m key implicit) := by
    unfold Parser.ParseV4Local
    cases NewMessage V4Local tainted with
    | error e => rfl
    | ok m =>
      cases hd : V4Decrypt m key implicit with
      | error e => simp only [hd]
      | ok tok => simp only [hd]; rfl
  have hp : (NewParser : Parser ε).ParseV4Public NewMessage V4Verify key tainted implicit =
      (match NewMessage V4Public tainted with
        | .error e => .error e
        | .ok m => V4Verify m key implicit) := by
    unfold Parser.ParseV4Public
    cases NewMessage V4Public tainted with
    | error e => rfl
    | ok m =>
      cases hd : V4Verify m key implicit with
      | error e => simp only [hd]
      | ok tok => simp only [hd]; rfl
  refine ⟨rfl, rfl, hl, hp, ?_, ?_⟩
  · rw [hl]
    cases NewMessage V4Local tainted with
    | error e => simp
    | ok m => simp
  · rw [hp]
    cases NewMessage V4Public tainted with
    | error e => simp
    | ok m => simp

/-! ## Facts about `validate` on joined rule lists -/

theorem validateLoop_append_error {ε : Type} (rs new : List (Rule ε)) (t : Token) (e : ε)
    (h : validateLoop rs t = .error e) : validateLoop (rs ++ new) t = .error e := by
  induction rs with
  | nil => simp [validateLoop] at h
  | cons q qs ih =>
    cases hq : q t with
    | some err => simpa [validateLoop, hq] using h
    | none =>
      simp only [validateLoop, hq] at h
      simpa [validateLoop, hq] using ih h

theorem validateLoop_append_ok {ε : Type} (rs new : List (Rule ε)) (t : Token)
    (h : validateLoop rs t = .ok t) : validateLoop (rs ++ new) t = validateLoop new t := by
  induction rs with
  | nil => rfl
  | cons q qs ih =>
    cases hq : q t with
    | some err => simp [validateLoop, hq] at h
    | none =>
      simp only [validateLoop, hq] at h
      simpa [validateLoop, hq] using ih h

/-! ## Claims about the rules of a parser -/

/-- C11: `AddRule` puts the given rules after the ones the parser has and
keeps those: the rule list becomes the old one followed by the new rules in
their order; `validate` then succeeds exactly when all old and all new rules
accept the token, an error of an old rule is returned as before, and adding
no rule changes nothing. -/
theorem AddRule_spec {ε : Type} (rs new : List (Rule ε)) (t : Token) :
    ((Parser.mk rs).AddRule new).rules = rs ++ new ∧
    (((Parser.mk rs).AddRule new).validate t = .ok t ↔
      (∀ r ∈ rs, r t = none) ∧ (∀ r ∈ new, r t = none)) ∧
    (∀ e, (Parser.mk rs).validate t = .error e →
      ((Parser.mk rs).AddRule new).validate t = .error e) ∧
    ((Parser.mk rs).validate t = .ok t →
      ((Parser.mk rs).AddRule new).validate t = (Parser.mk new).validate t) ∧
    ((Parser.mk rs).AddRule []).validate t = (Parser.mk rs).validate t := by
  refine ⟨rfl, ?_, ?_, ?_, ?_⟩
  · simp only [Parser.validate, Parser.AddRule, validateLoop_ok_iff, true_and, List.mem_append]
    constructor
    · intro h
      exact ⟨fun r hr => h r (Or.inl hr), fun r hr => h r (Or.inr hr)⟩
    · rintro ⟨h1, h2⟩ r (hr | hr)
      · exact h1 r hr
      · exact h2 r hr
  · intro e h
    exact validateLoop_append_error rs new t e h
  · intro h
    exact validateLoop_append_ok rs new t h
  · simp [Parser.validate, Parser.AddRule]

/-- Witness of C11: a rule that rejects the token, added after a rule that
accepts it and after a rule that rejects it. -/
theorem AddRule_spec_witness :
    ((Parser.mk [emptyFooterRule 7]).AddRule [emptyFooterRule 9]).validate ⟨[], [1]⟩ =
      .error 7 ∧
    ((Parser.mk [fun _ => none]).AddRule [emptyFooterRule 9]).validate ⟨[], [1]⟩ =
      (Parser.mk [emptyFooterRule 9]).validate ⟨[], [1]⟩ :=
  ⟨(AddRule_spec [emptyFooterRule 7] [emptyFooterRule 9] ⟨[], [1]⟩).2.2.1 7 rfl,
   (AddRule_spec [fun _ => none] [emptyFooterRule 9] ⟨[], [1]⟩).2.2.2.1 rfl⟩

/-- C12: `SetRules` overwrites the rules of the parser: afterwards `validate`
returns on every token what it returns for `MakeParser` of the new rules,
whatever rules the parser held, the rule of `NewParserForValidNow` included. -/
theorem SetRules_spec {ε Time : Type} (p p' : Parser ε) (rs : List (Rule ε))
    (ValidAt : Time → Rule ε) (now : Time) (t : Token) :
    (p.SetRules rs).rules = rs ∧
    (p.SetRules rs).validate t = (MakeParser rs).validate t ∧
    (p.SetRules rs).validate t = (p'.SetRules rs).validate t ∧
    ((NewParserForValidNow ValidAt now).SetRules rs).validate t = (MakeParser rs).validate t :=
  ⟨rfl, rfl, rfl, rfl⟩

/-! ## Decoding what was encoded -/

theorem decodeSextet_alphabet (k : Fin 64) : decodeSextet (alphabet.getD k.val 'A') = some k.val := by
  revert k
  decide

theorem decodeSextet_encodeSextet (n : Nat) : decodeSextet (encodeSextet n) = some (n % 64) :=
  decodeSextet_alphabet ⟨n % 64, Nat.mod_lt n (by decide)⟩

theorem toByte_first (a b : Byte) :
    toByte (a.val / 4 % 64 * 4 + (a.val % 4 * 16 + b.val / 16) % 64 / 16) = a := by
  apply Fin.ext
  have ha := a.isLt
  have hb := b.isLt
  simp only [toByte]
  omega

theorem toByte_first_last (a : Byte) :
    toByte (a.val / 4 % 64 * 4 + a.val % 4 * 16 % 64 / 16) = a := by
  apply Fin.ext
  have ha := a.isLt
  simp only [toByte]
  omega

theorem toByte_second (a b c : Byte) :
    toByte ((a.val % 4 * 16 + b.val / 16) % 64 % 16 * 16 +
      (b.val % 16 * 4 + c.val / 64) % 64 / 4) = b := by
  apply Fin.ext
  have ha := a.isLt
  have hb := b.isLt
  have hc := c.isLt
  simp only [toByte]
  omega

theorem toByte_second_last (a b : Byte) :
    toByte ((a.val % 4 * 16 + b.val / 16) % 64 % 16 * 16 + b.val % 16 * 4 % 64 / 4) = b := by
  apply Fin.ext
  have ha := a.isLt
  have hb := b.isLt
  simp only [toByte]
  omega

theorem toByte_third (b c : Byte) :
    toByte ((b.val % 16 * 4 + c.val / 64) % 64 % 4 * 64 + c.val % 64 % 64) = c := by
  apply Fin.ext
  have hb := b.isLt
  have hc := c.isLt
  simp only [toByte]
  omega

theorem Decode_Encode (b : Bytes) : Decode (Encode b) = .Ok b := by
  induction b using Encode.induct with
  | case1 => rfl
  | case2 a =>
    have h : a.val % 4 * 16 % 64 % 16 = 0 := by omega
    simp only [Encode, Decode, decodeSextet_encodeSextet, toByte_first_last, h, if_true]
  | case3 a b =>
    have h : b.val % 16 * 4 % 64 % 4 = 0 := by omega
    simp only [Encode, Decode, decodeSextet_encodeSextet, toByte_first, toByte_second_last, h,
      if_true]
  | case4 a b c rest ih =>
    simp only [Encode, Decode, decodeSextet_encodeSextet, ih, toByte_first, toByte_second,
      toByte_third]

/-! ## Encoding what was decoded -/

theorem decodeSextet_some (ch : Char) (x : Nat) (h : decodeSextet ch = some x) :
    x < 64 ∧ encodeSextet x = ch := by
  unfold decodeSextet at h
  split at h
  · rename_i hlt
    injection h with h
    subst h
    have hlen : alphabet.indexOf ch < alphabet.length := hlt
    refine ⟨hlt, ?_⟩
    unfold encodeSextet
    rw [Nat.mod_eq_of_lt hlt, List.getD_eq_getElem _ _ hlen]
    exact List.getElem_indexOf hlen
  · cases h

theorem encodeSextet_congr (n x : Nat) (ch : Char) (hn : n = x) (hx : encodeSextet x = ch) :
    encodeSextet n = ch := by
  rw [hn, hx]

theorem Encode_of_Decode : ∀ (s : Str) (b : Bytes), Decode s = .Ok b → Encode b = s
  | [], b, h => by
    simp only [Decode] at h
    injection h with h
    subst h
    rfl
  | [_], b, h => by
    simp only [Decode] at h
    cases h
  | [c0, c1], b, h => by
    cases h0 : decodeSextet c0 with
    | none => simp [Decode, h0] at h
    | some x0 =>
      cases h1 : decodeSextet c1 with
      | none => simp [Decode, h0, h1] at h
      | some x1 =>
        obtain ⟨l0, e0⟩ := decodeSextet_some c0 x0 h0
        obtain ⟨l1, e1⟩ := decodeSextet_some c1 x1 h1
        simp only [Decode, h0, h1] at h
        split at h
        · rename_i hz
          injection h with h
          subst h
          simp only [Encode, toByte]
          rw [encodeSextet_congr _ x0 c0 (by omega) e0, encodeSextet_congr _ x1 c1 (by omega) e1]
        · cases h
  | [c0, c1, c2], b, h => by
    cases h0 : decodeSextet c0 with
    | none => simp [Decode, h0] at h
    | some x0 =>
      cases h1 : decodeSextet c1 with
      | none => simp [Decode, h0, h1] at h
      | some x1 =>
        cases h2 : decodeSextet c2 with
        | none => simp [Decode, h0, h1, h2] at h
        | some x2 =>
          obtain ⟨l0, e0⟩ := decodeSextet_some c0 x0 h0
          obtain ⟨l1, e1⟩ := decodeSextet_some c1 x1 h1
          obtain ⟨l2, e2⟩ := decodeSextet_some c2 x2 h2
          simp only [Decode, h0, h1, h2] at h
          split at h
          · rename_i hz
            injection h with h
            subst h
            simp only [Encode, toByte]
            rw [encodeSextet_congr _ x0 c0 (by omega) e0,
              encodeSextet_congr _ x1 c1 (by omega) e1,
              encodeSextet_congr _ x2 c2 (by omega) e2]
          · cases h
  | c0 :: c1 :: c2 :: c3 :: rest, b, h => by
    cases h0 : decodeSextet c0 with
    | none => simp [Decode, h0] at h
    | some x0 =>
      cases h1 : decodeSextet c1 with
      | none => simp [Decode, h0, h1] at h
      | some x1 =>
        cases h2 : decodeSextet c2 with
        | none => simp [Decode, h0, h1, h2] at h
        | some x2 =>
          cases h3 : decodeSextet c3 with
          | none => simp [Decode, h0, h1, h2, h3] at h
          | some x3 =>
            cases hr : Decode rest with
            | Err e => simp [Decode, h0, h1, h2, h3, hr] at h
            | Ok bs =>
              obtain ⟨l0, e0⟩ := decodeSextet_some c0 x0 h0
              obtain ⟨l1, e1⟩ := decodeSextet_some c1 x1 h1
              obtain ⟨l2, e2⟩ := decodeSextet_some c2 x2 h2
              obtain ⟨l3, e3⟩ := decodeSextet_some c3 x3 h3
              have ih := Encode_of_Decode rest bs hr
              simp only [Decode, h0, h1, h2, h3, hr] at h
              injection h with h
              subst h
              simp only [Encode, toByte, ih]
              rw [encodeSextet_congr _ x0 c0 (by omega) e0,
                encodeSextet_congr _ x1 c1 (by omega) e1,
                encodeSextet_congr _ x2 c2 (by omega) e2,
                encodeSextet_congr _ x3 c3 (by omega) e3]

/-! ## Claims about the framing round trip -/

theorem Split_append_dot_end (s : Str) : Split (s ++ ['.']) = Split s ++ [[]] := by
  induction s with
  | nil => simp [Split]
  | cons c cs ih =>
    by_cases hc : c = '.'
    · subst hc
      rw [List.cons_append, Split_cons_dot, Split_cons_dot, ih]
      rfl
    · rw [List.cons_append, Split_cons_of_ne c _ hc, Split_cons_of_ne c _ hc, ih]
      cases hs : Split cs with
      | nil => exact absurd hs (Split_ne_nil cs)
      | cons p ps => rfl

theorem newMessageOfParts_encoded (m : message)
    (hp : m.protocol.newPayload m.p.bytes = .Ok m.p) :
    newMessageOfParts m.protocol ⟨m.header, Encode m.p.bytes, Encode m.footer⟩ =
      .done (.Ok m) := by
  unfold newMessageOfParts
  simp only [message.header, ne_eq, not_true_eq_false, if_false, Decode_Encode, AndThen, hp]

/-- C17: a message built by `newMessageFromPayloadAndFooter`, whose payload
`newPayload` of its protocol rebuilds from its bytes, is returned unchanged by
`newMessage` on its `encoded()` form, for an empty footer and for a non-empty
one; the encoded form has exactly 3 segments when the footer is empty and
exactly 4 otherwise. -/
theorem framing_round_trip (p : payload) (footer : Bytes) (m : message)
    (hm : newMessageFromPayloadAndFooter p footer = .done m)
    (hp : m.protocol.newPayload m.p.bytes = .Ok m.p) :
    m.p = p ∧ m.footer = footer ∧
    newMessage m.protocol m.encoded = .done (.Ok m) ∧
    (Split m.encoded).length = (if m.footer.length = 0 then 3 else 4) := by
  obtain ⟨raw, hraw⟩ : ∃ P, protocolForPayload p = .Ok P := by
    cases p <;> exact ⟨_, rfl⟩
  rw [newMessageFromPayloadAndFooter_done raw p footer hraw] at hm
  injection hm with hm
  subst hm
  refine ⟨rfl, rfl, ?_, ?_⟩
  · rw [newMessage_of_parts _ _ _ (deconstructToken_encoded _)]
    exact newMessageOfParts_encoded _ hp
  · rw [Split_encoded]
    split <;> rfl

/-- Witness of C17: the `v4.public` payload of 64 zero bytes with the footer
`foob`. -/
theorem framing_round_trip_witness :
    newMessage V4Public (message.mk V4Public zeroPublicPayload [102, 111, 111, 98]).encoded =
      .done (.Ok ⟨V4Public, zeroPublicPayload, [102, 111, 111, 98]⟩) ∧
    (Split (message.mk V4Public zeroPublicPayload [102, 111, 111, 98]).encoded).length = 4 :=
  (framing_round_trip zeroPublicPayload [102, 111, 111, 98]
    ⟨V4Public, zeroPublicPayload, [102, 111, 111, 98]⟩ (by decide) (by decide)).2.2

/-- C18: for a token of exactly 3 segments, `newMessage` returns on the token
followed by a dot what it returns on the token itself, so two different
strings are parsed alike; a message parsed from the token followed by a dot
has an empty footer and its `encoded()` form is not the string parsed. -/
theorem trailing_dot (P : Protocol) (tok : Str) (h3 : (Split tok).length = 3) :
    newMessage P (tok ++ ['.']) = newMessage P tok ∧
    tok ++ ['.'] ≠ tok ∧
    (∀ m, newMessage P (tok ++ ['.']) = .done (.Ok m) →
      m.unsafeFooter = [] ∧ m.encoded ≠ tok ++ ['.']) := by
  have hsplit := Split_append_dot_end tok
  have h4 : (Split (tok ++ ['.'])).length = 4 := by rw [hsplit]; simp [h3]
  rcases length_three_or_four _ (Or.inl h3) with ⟨a, b, c, hs⟩ | ⟨a, b, c, d, hs⟩
  · have hs' : Split (tok ++ ['.']) = [a, b, c, []] := by rw [hsplit, hs]; rfl
    have hd := deconstructToken_four _ a b c [] hs'
    have hd3 := deconstructToken_three _ a b c hs
    have heq : newMessage P (tok ++ ['.']) = newMessage P tok := by
      rw [newMessage_of_parts P _ _ hd, newMessage_of_parts P _ _ hd3]
    refine ⟨heq, ?_, ?_⟩
    · intro h
      have := congrArg List.length h
      simp at this
    · intro m hm
      rw [newMessage_of_parts P _ _ hd] at hm
      obtain ⟨_, _, hf, _⟩ := newMessageOfParts_eq_Ok P _ m hm
      simp only [Decode] at hf
      injection hf with hf
      have hfooter : m.footer = [] := hf.symm
      refine ⟨hfooter, fun he => ?_⟩
      have hlen := congrArg (fun s => (Split s).length) he
      simp only [Split_encoded, hfooter, List.length_nil, if_true, h4] at hlen
      simp at hlen
  · rw [hs] at h3
    simp at h3

/-- Witness of C18: the `v4.public` token with a payload of 64 zero bytes. -/
theorem trailing_dot_witness :
    newMessage V4Public ("v4.public.".toList ++ List.replicate 86 'A' ++ ['.']) =
      newMessage V4Public ("v4.public.".toList ++ List.replicate 86 'A') ∧
    (message.mk V4Public zeroPublicPayload []).encoded ≠
      "v4.public.".toList ++ List.replicate 86 'A' ++ ['.'] :=
  have h := trailing_dot V4Public ("v4.public.".toList ++ List.replicate 86 'A') (by decide)
  ⟨h.1, (h.2.2 ⟨V4Public, zeroPublicPayload, []⟩ (by decide)).2⟩

/-! ## Facts about PASERK strings -/

theorem paserkHeader_take (T T' : KeyType) (body : Str)
    (h : (paserkHeader T' ++ body).take (paserkHeader T).length = paserkHeader T) : T' = T := by
  rcases T with ⟨v, k⟩
  rcases T' with ⟨v', k'⟩
  cases v <;> cases k <;> cases v' <;> cases k' <;>
    first
      | rfl
      | (simp [paserkHeader, Version.digit, KeyKind.str] at h)

theorem DeserializeKey_header (c : P384) (T : KeyType) (body : Str) :
    DeserializeKey c T (paserkHeader T ++ body) =
      match Decode body with
      | .Err _ => .error .BadPaserk
      | .Ok raw => NewKey c T raw := by
  simp [DeserializeKey]

theorem NewKey_valid (c : P384) (K : Key) (h : K.valid c) : NewKey c K.type K.material = .ok K := by
  unfold NewKey
  unfold Key.valid at h
  rw [if_pos h]

theorem NewKey_eq_ok (c : P384) (T : KeyType) (raw : Bytes) (K : Key)
    (h : NewKey c T raw = .ok K) : K = ⟨T, raw⟩ ∧ K.valid c := by
  unfold NewKey at h
  split at h
  · rename_i hv
    injection h with h
    subst h
    exact ⟨rfl, hv⟩
  · cases h

/-! ## Claims about PASERK -/

/-- C15: `DeserializeKey` at a key type returns an error on every string that
does not start with the prefix of the type, in particular on every string
with the prefix of another version or kind, on every string whose body is not
base64url, and on every string whose decoded body does not have the length of
the keys of the type. -/
theorem DeserializeKey_strict (c : P384) (T : KeyType) (s : Str) :
    (s.take (paserkHeader T).length ≠ paserkHeader T →
      DeserializeKey c T s = .error .BadPaserk) ∧
    (∀ T' body, T' ≠ T → DeserializeKey c T (paserkHeader T' ++ body) = .error .BadPaserk) ∧
    (∀ body e, Decode body = .Err e →
      DeserializeKey c T (paserkHeader T ++ body) = .error .BadPaserk) ∧
    (∀ body raw, Decode body = .Ok raw → raw.length ≠ T.length →
      DeserializeKey c T (paserkHeader T ++ body) = .error .BadKey) := by
  refine ⟨?_, ?_, ?_, ?_⟩
  · intro h
    unfold DeserializeKey
    rw [if_neg h]
  · intro T' body hT
    unfold DeserializeKey
    rw [if_neg (fun h => hT (paserkHeader_take T T' body h))]
  · intro body e he
    rw [DeserializeKey_header, he]
  · intro body raw hraw hlen
    rw [DeserializeKey_header, hraw]
    simp only [NewKey]
    exact if_neg (fun h => hlen h.1)

/-- Witness of C15: at the type of `v4` symmetric keys, a string without
prefix, a `k3.local.` string, a body with `=` and a body of 33 bytes. -/
theorem DeserializeKey_strict_witness :
    DeserializeKey acceptAll ⟨.Version4, .Local⟩ (List.replicate 43 'A') = .error .BadPaserk ∧
    DeserializeKey acceptAll ⟨.Version4, .Local⟩
      (paserkHeader ⟨.Version3, .Local⟩ ++ List.replicate 43 'A') = .error .BadPaserk ∧
    DeserializeKey acceptAll ⟨.Version4, .Local⟩
      (paserkHeader ⟨.Version4, .Local⟩ ++ (List.replicate 42 'A' ++ ['='])) =
      .error .BadPaserk ∧
    DeserializeKey acceptAll ⟨.Version4, .Local⟩
      (paserkHeader ⟨.Version4, .Local⟩ ++ List.replicate 44 'A') = .error .BadKey :=
  ⟨(DeserializeKey_strict acceptAll ⟨.Version4, .Local⟩ (List.replicate 43 'A')).1 (by decide),
   (DeserializeKey_strict acceptAll ⟨.Version4, .Local⟩ []).2.1 ⟨.Version3, .Local⟩
      (List.replicate 43 'A') (by decide),
   (DeserializeKey_strict acceptAll ⟨.Version4, .Local⟩ []).2.2.1
      (List.replicate 42 'A' ++ ['=']) .BadEncoding (by decide),
   (DeserializeKey_strict acceptAll ⟨.Version4, .Local⟩ []).2.2.2
      (List.replicate 44 'A') (List.replicate 33 0) (by decide) (by decide)⟩

/-! ## Payloads rebuilt from their bytes -/

theorem firstArr_append (n : Nat) (a : ByteArr n) (rest : Bytes)
    (h : n ≤ (a.val ++ rest).length) : firstArr n (a.val ++ rest) h = a := by
  apply Subtype.ext
  simp only [firstArr]
  exact List.take_left' a.property

theorem lastArr_append (n : Nat) (front : Bytes) (a : ByteArr n)
    (h : n ≤ (front ++ a.val).length) : lastArr n (front ++ a.val) h = a := by
  apply Subtype.ext
  simp only [lastArr, List.length_append, a.property, Nat.add_sub_cancel]
  exact List.drop_left' rfl

theorem middle_append (n k : Nat) (a : ByteArr n) (mid : Bytes) (b : ByteArr k) :
    middle n k (a.val ++ mid ++ b.val) = mid := by
  simp only [middle, List.append_assoc, List.length_append, a.property, b.property]
  rw [List.drop_left' a.property]
  have h : n + (mid.length + k) - n - k = mid.length := by omega
  rw [h]
  exact List.take_left' rfl

theorem newPayload_v4Local (nonce : ByteArr 32) (cipherText : Bytes) (tag : ByteArr 32) :
    V4Local.newPayload (payload.v4Local nonce cipherText tag).bytes =
      .Ok (.v4Local nonce cipherText tag) := by
  have hlen : 32 + 32 ≤ (nonce.val ++ cipherText ++ tag.val).length := by
    simp only [List.length_append, nonce.property, tag.property]; omega
  simp only [Protocol.newPayload, V4Local, payload.bytes, dif_pos hlen]
  rw [middle_append, lastArr_append]
  simp only [List.append_assoc]
  rw [firstArr_append]

theorem newPayload_v4Public (message : Bytes) (signature : ByteArr 64) :
    V4Public.newPayload (payload.v4Public message signature).bytes =
      .Ok (.v4Public message signature) := by
  have hlen : 64 ≤ (message ++ signature.val).length := by
    simp only [List.length_append, signature.property]; omega
  simp only [Protocol.newPayload, V4Public, payload.bytes, dif_pos hlen]
  rw [lastArr_append]
  simp only [List.length_append, signature.property, Nat.add_sub_cancel]
  rw [List.take_left' rfl]

theorem newPayload_v2Local (nonce : ByteArr 24) (cipherText : Bytes)
    (h : 16 ≤ cipherText.length) :
    V2Local.newPayload (payload.v2Local nonce cipherText).bytes =
      .Ok (.v2Local nonce cipherText) := by
  have hlen : 24 + 16 ≤ (nonce.val ++ cipherText).length := by
    simp only [List.length_append, nonce.property]; omega
  simp only [Protocol.newPayload, V2Local, payload.bytes, dif_pos hlen]
  rw [firstArr_append, List.drop_left' nonce.property]

theorem newPayload_v2Public (message : Bytes) (signature : ByteArr 64) :
    V2Public.newPayload (payload.v2Public message signature).bytes =
      .Ok (.v2Public message signature) := by
  have hlen : 64 ≤ (message ++ signature.val).length := by
    simp only [List.length_append, signature.property]; omega
  simp only [Protocol.newPayload, V2Public, payload.bytes, dif_pos hlen]
  rw [lastArr_append]
  simp only [List.length_append, signature.property, Nat.add_sub_cancel]
  rw [List.take_left' rfl]

theorem newPayload_v3Local (nonce : ByteArr 32) (cipherText : Bytes) (mac : ByteArr 48) :
    V3Local.newPayload (payload.v3Local nonce cipherText mac).bytes =
      .Ok (.v3Local nonce cipherText mac) := by
  have hlen : 32 + 48 ≤ (nonce.val ++ cipherText ++ mac.val).length := by
    simp only [List.length_append, nonce.property, mac.property]; omega
  simp only [Protocol.newPayload, V3Local, payload.bytes, dif_pos hlen]
  rw [middle_append, lastArr_append]
  simp only [List.append_assoc]
  rw [firstArr_append]

theorem newPayload_v3Public (message : Bytes) (signature : ByteArr 96) :
    V3Public.newPayload (payload.v3Public message signature).bytes =
      .Ok (.v3Public message signature) := by
  have hlen : 96 ≤ (message ++ signature.val).length := by
    simp only [List.length_append, signature.property]; omega
  simp only [Protocol.newPayload, V3Public, payload.bytes, dif_pos hlen]
  rw [lastArr_append]
  simp only [List.length_append, signature.property, Nat.add_sub_cancel]
  rw [List.take_left' rfl]

/-- The framing round trip for a message whose payload `newPayload` rebuilds. -/
theorem newMessage_encoded (m : message) (hp : m.protocol.newPayload m.p.bytes = .Ok m.p) :
    newMessage m.protocol m.encoded = .done (.Ok m) := by
  rw [newMessage_of_parts _ _ _ (deconstructToken_encoded _)]
  exact newMessageOfParts_encoded _ hp

/-! ## Round trips of the six suites -/

theorem token_packet (j : ClaimsCodec) (token : Token)
    (hj : j.decode (j.encode token.claims) = some token.claims) :
    packet.token j ⟨j.encode token.claims, token.footer⟩ = .Ok token := by
  simp only [packet.token, hj]

theorem v4Local_round_trip (c : Primitives) (j : ClaimsCodec) (token : Token)
    (key : ByteArr 32) (implicit : Bytes) (nonce : ByteArr 32)
    (hj : j.decode (j.encode token.claims) = some token.claims) :
    ∃ m, v4LocalEncrypt c (token.packet j) key implicit nonce = .done m ∧
      newMessage V4Local m.encoded = .done (.Ok m) ∧
      m.v4Decrypt c j key implicit = .Ok token := by
  refine ⟨⟨V4Local, _, token.footer⟩, newMessageFromPayloadAndFooter_done _ _ _ rfl, ?_, ?_⟩
  · exact newMessage_encoded ⟨V4Local, _, _⟩ (newPayload_v4Local _ _ _)
  · simp only [message.v4Decrypt, v4LocalDecrypt, message.header, Token.packet, if_true,
      c.xchacha20_inverse, AndThen]
    exact token_packet j token hj

theorem v4Public_round_trip (c : Primitives) (j : ClaimsCodec) (token : Token)
    (key : ByteArr 64) (implicit : Bytes) (hkey : c.ed25519Valid key = true)
    (hj : j.decode (j.encode token.claims) = some token.claims) :
    ∃ m, v4PublicSign c (token.packet j) key implicit = .done m ∧
      newMessage V4Public m.encoded = .done (.Ok m) ∧
      m.v4Verify c j (ed25519Public key) implicit = .Ok token := by
  refine ⟨⟨V4Public, _, token.footer⟩, newMessageFromPayloadAndFooter_done _ _ _ rfl, ?_, ?_⟩
  · exact newMessage_encoded ⟨V4Public, _, _⟩ (newPayload_v4Public _ _)
  · simp only [message.v4Verify, v4PublicVerify, message.header, Token.packet,
      c.ed25519Verify_ed25519Sign key _ hkey, if_true, AndThen]
    exact token_packet j token hj

theorem v3Local_round_trip (c : Primitives) (j : ClaimsCodec) (token : Token)
    (key : ByteArr 32) (implicit : Bytes) (nonce : ByteArr 32)
    (hj : j.decode (j.encode token.claims) = some token.claims) :
    ∃ m, v3LocalEncrypt c (token.packet j) key implicit nonce = .done m ∧
      newMessage V3Local m.encoded = .done (.Ok m) ∧
      m.v3Decrypt c j key implicit = .Ok token := by
  refine ⟨⟨V3Local, _, token.footer⟩, newMessageFromPayloadAndFooter_done _ _ _ rfl, ?_, ?_⟩
  · exact newMessage_encoded ⟨V3Local, _, _⟩ (newPayload_v3Local _ _ _)
  · simp only [message.v3Decrypt, v3LocalDecrypt, message.header, Token.packet, if_true,
      c.aes256Ctr_inverse, AndThen]
    exact token_packet j token hj

theorem v3Public_round_trip (c : Primitives) (j : ClaimsCodec) (token : Token)
    (key : ByteArr 48) (implicit : Bytes) (hkey : c.p384Valid key = true)
    (hj : j.decode (j.encode token.claims) = some token.claims) :
    ∃ m, v3PublicSign c (token.packet j) key implicit = .done m ∧
      newMessage V3Public m.encoded = .done (.Ok m) ∧
      m.v3Verify c j (c.p384Public key) implicit = .Ok token := by
  refine ⟨⟨V3Public, _, token.footer⟩, newMessageFromPayloadAndFooter_done _ _ _ rfl, ?_, ?_⟩
  · exact newMessage_encoded ⟨V3Public, _, _⟩ (newPayload_v3Public _ _)
  · simp only [message.v3Verify, v3PublicVerify, message.header, Token.packet,
      c.ecdsaVerify_ecdsaSign key _ hkey, if_true, AndThen]
    exact token_packet j token hj

theorem v2Local_round_trip (c : Primitives) (j : ClaimsCodec) (token : Token)
    (key : ByteArr 32) (random : ByteArr 24)
    (hj : j.decode (j.encode token.claims) = some token.claims) :
    ∃ m, v2LocalEncrypt c (token.packet j) key random = .done m ∧
      newMessage V2Local m.encoded = .done (.Ok m) ∧
      m.v2Decrypt c j key = .Ok token := by
  refine ⟨⟨V2Local, _, token.footer⟩, newMessageFromPayloadAndFooter_done _ _ _ rfl, ?_, ?_⟩
  · refine newMessage_encoded ⟨V2Local, _, _⟩ (newPayload_v2Local _ _ ?_)
    rw [c.aeadSeal_length]
    omega
  · simp only [message.v2Decrypt, v2LocalDecrypt, message.header, Token.packet,
      c.aeadOpen_aeadSeal, AndThen]
    exact token_packet j token hj

theorem v2Public_round_trip (c : Primitives) (j : ClaimsCodec) (token : Token)
    (key : ByteArr 64) (hkey : c.ed25519Valid key = true)
    (hj : j.decode (j.encode token.claims) = some token.claims) :
    ∃ m, v2PublicSign c (token.packet j) key = .done m ∧
      newMessage V2Public m.encoded = .done (.Ok m) ∧
      m.v2Verify c j (ed25519Public key) = .Ok token := by
  refine ⟨⟨V2Public, _, token.footer⟩, newMessageFromPayloadAndFooter_done _ _ _ rfl, ?_, ?_⟩
  · exact newMessage_encoded ⟨V2Public, _, _⟩ (newPayload_v2Public _ _)
  · simp only [message.v2Verify, v2PublicVerify, message.header, Token.packet,
      c.ed25519Verify_ed25519Sign key _ hkey, if_true, AndThen]
    exact token_packet j token hj

/-! ## Claim about the end-to-end round trip -/

/-- C13: for every suite (v2, v3, v4; local, public), every valid key, every
token (claims and footer, empty or not) and every implicit assertion, the
message made by encrypting or signing the token is returned by `newMessage`
from its `encoded()` form, and decrypting or verifying it with the same key
and implicit assertion returns the token; for v4 this is what `ParseV4Local`
and `ParseV4Public` of a parser without rules return on the encoded form.
The claims are taken to survive their JSON coding. -/
theorem end_to_end_round_trip (c : Primitives) (j : ClaimsCodec) (token : Token)
    (implicit : Bytes) (hj : j.decode (j.encode token.claims) = some token.claims) :
    (∀ (key : ByteArr 32) (random : ByteArr 24),
      ∃ m, v2LocalEncrypt c (token.packet j) key random = .done m ∧
        newMessage V2Local m.encoded = .done (.Ok m) ∧ m.v2Decrypt c j key = .Ok token) ∧
    (∀ key : ByteArr 64, c.ed25519Valid key = true →
      ∃ m, v2PublicSign c (token.packet j) key = .done m ∧
        newMessage V2Public m.encoded = .done (.Ok m) ∧
        m.v2Verify c j (ed25519Public key) = .Ok token) ∧
    (∀ (key : ByteArr 32) (nonce : ByteArr 32),
      ∃ m, v3LocalEncrypt c (token.packet j) key implicit nonce = .done m ∧
        newMessage V3Local m.encoded = .done (.Ok m) ∧
        m.v3Decrypt c j key implicit = .Ok token) ∧
    (∀ key : ByteArr 48, c.p384Valid key = true →
      ∃ m, v3PublicSign c (token.packet j) key implicit = .done m ∧
        newMessage V3Public m.encoded = .done (.Ok m) ∧
        m.v3Verify c j (c.p384Public key) implicit = .Ok token) ∧
    (∀ (key : ByteArr 32) (nonce : ByteArr 32),
      ∃ m, v4LocalEncrypt c (token.packet j) key implicit nonce = .done m ∧
        newMessage V4Local m.encoded = .done (.Ok m) ∧
        m.v4Decrypt c j key implicit = .Ok token) ∧
    (∀ key : ByteArr 64, c.ed25519Valid key = true →
      ∃ m, v4PublicSign c (token.packet j) key implicit = .done m ∧
        newMessage V4Public m.encoded = .done (.Ok m) ∧
        m.v4Verify c j (ed25519Public key) implicit = .Ok token) ∧
    (∀ (NewMessage : Protocol → Str → Except Error message)
      (V4Decrypt : message → ByteArr 32 → Bytes → Except Error Token),
      (∀ P s m, newMessage P s = .done (.Ok m) → NewMessage P s = .ok m) →
      (∀ m key t, m.v4Decrypt c j key implicit = .Ok t → V4Decrypt m key implicit = .ok t) →
      ∀ (key : ByteArr 32) (nonce : ByteArr 32) (m : message),
        v4LocalEncrypt c (token.packet j) key implicit nonce = .done m →
        (NewParser : Parser Error).ParseV4Local NewMessage V4Decrypt key m.encoded implicit =
          .ok token) ∧
    (∀ (NewMessage : Protocol → Str → Except Error message)
      (V4Verify : message → ByteArr 32 → Bytes → Except Error Token),
      (∀ P s m, newMessage P s = .done (.Ok m) → NewMessage P s = .ok m) →
      (∀ m key t, m.v4Verify c j key implicit = .Ok t → V4Verify m key implicit = .ok t) →
      ∀ (key : ByteArr 64) (m : message), c.ed25519Valid key = true →
        v4PublicSign c (token.packet j) key implicit = .done m →
        (NewParser : Parser Error).ParseV4Public NewMessage V4Verify (ed25519Public key)
          m.encoded implicit = .ok token) := by
  refine ⟨fun key random => v2Local_round_trip c j token key random hj,
    fun key hkey => v2Public_round_trip c j token key hkey hj,
    fun key nonce => v3Local_round_trip c j token key implicit nonce hj,
    fun key hkey => v3Public_round_trip c j token key implicit hkey hj,
    fun key nonce => v4Local_round_trip c j token key implicit nonce hj,
    fun key hkey => v4Public_round_trip c j token key implicit hkey hj, ?_, ?_⟩
  · intro NewMessage V4Decrypt hNew hDec key nonce m hm
    obtain ⟨m', hm', hparse, hdec⟩ := v4Local_round_trip c j token key implicit nonce hj
    rw [hm] at hm'
    injection hm' with hm'
    subst hm'
    simp only [Parser.ParseV4Local, hNew _ _ _ hparse, hDec _ _ _ hdec]
    rfl
  · intro NewMessage V4Verify hNew hVer key m hkey hm
    obtain ⟨m', hm', hparse, hver⟩ := v4Public_round_trip c j token key implicit hkey hj
    rw [hm] at hm'
    injection hm' with hm'
    subst hm'
    simp only [Parser.ParseV4Public, hNew _ _ _ hparse, hVer _ _ _ hver]
    rfl

/-- Witness of C13: the sample token, encrypted as `v4.local` with a key and a
nonce of zero bytes under the sample primitives, is returned by
`ParseV4Local` of a parser without rules. -/
theorem end_to_end_round_trip_witness :
    (NewParser : Parser Error).ParseV4Local exportedNewMessage
      (fun m key implicit => (m.v4Decrypt samplePrimitives sampleCodec key implicit).pair)
      ⟨List.replicate 32 0, by decide⟩
      (message.mk V4Local
        (.v4Local ⟨List.replicate 32 0, by decide⟩ (strBytes "exp:2022,".toList)
          ⟨List.replicate 32 0, by decide⟩) [102, 111, 111, 98]).encoded [1, 2] =
      .ok sampleToken :=
  (end_to_end_round_trip samplePrimitives sampleCodec sampleToken [1, 2] (by decide)).2.2.2.2.2.2.1
    exportedNewMessage
    (fun m key implicit => (m.v4Decrypt samplePrimitives sampleCodec key implicit).pair)
    (by intro P s m h; simp only [exportedNewMessage, h, Result.pair])
    (by intro m key t h; simp only [h, Result.pair])
    ⟨List.replicate 32 0, by decide⟩ ⟨List.replicate 32 0, by decide⟩ _ rfl

end Paseto
